import Mathlib

/-!
Verification development for the cantara-songlib classic-song pipeline.

The Rust sources are shallowly embedded:
* Rust `String`/`&str` values are embedded as `List Char` (named `Str` below),
  because the interesting operations (trimming, line splitting, lowercasing,
  scanning) are re-implemented here by structural recursion so that every
  definition is executable and kernel-reducible.
* `Vec<T>` becomes `List T`; `HashMap<String, String>` becomes an association
  list with overwrite-on-insert (`tagsInsert`), whose lookup behaviour
  (`tagsGet`) matches the map semantics; iteration order of a `HashMap` is
  irrelevant everywhere it is iterated (the pairs are inserted into another
  map).
* `Rc<RefCell<SongPart>>` handles inside a `Song` are embedded as indices into
  the song's `parts` list; mutation through a handle becomes `List.set` at
  that index.
* The `while` loops of `wrap_blocks` (slides.rs) are embedded with an explicit
  fuel parameter, because the outer loop does not terminate for every input;
  `WrapOutcome.timeout` reports fuel exhaustion and "the loop terminates" is
  rendered as "some fuel suffices".
* The Handlebars template engine (`render_metadata`, an external crate treated
  by the spec as an external collaborator) is embedded as a function parameter
  of type `RenderFn`.
* Rust `usize` arithmetic is embedded as `Nat`; the only subtraction sites are
  `maximum_lines - 1` (guarded by `maximum_lines ≥ 1` in the theorems below)
  and `count - 1` (used only in a comparison, where truncation agrees with the
  release-mode behaviour for `count = 0` since the branch is irrelevant there).
-/

namespace Cantara

/-! ## Text primitives (embedding of the used `str` operations) -/

/-- Embedding of a Rust string as a list of characters. -/
abbrev Str := List Char

/-- ASCII lowercasing of a single character; embeds `char::to_lowercase` for
the ASCII inputs that appear here (full Unicode lowercasing is not modelled). -/
def asciiLower (c : Char) : Char :=
  if c.isUpper then Char.ofNat (c.toNat + 32) else c

/-- Embedding of `str::to_lowercase`. -/
def strLower (s : Str) : Str := s.map asciiLower

/-- Embedding of `str::trim`: remove leading and trailing whitespace. -/
def strTrim (s : Str) : Str :=
  ((s.dropWhile Char.isWhitespace).reverse.dropWhile Char.isWhitespace).reverse

/-- Split a character list at every newline character (keeping empty pieces). -/
def splitOnNl : Str → List Str
  | [] => [[]]
  | c :: rest =>
    if c = '\n' then [] :: splitOnNl rest
    else
      match splitOnNl rest with
      | [] => [[c]]
      | l :: ls => (c :: l) :: ls

/-- Embedding of `str::lines`: split on newlines, do not yield a final empty
line for a trailing newline, and strip one trailing carriage return per
line. -/
def rust_lines (s : Str) : List Str :=
  if s = [] then []
  else
    let l := splitOnNl s
    let l := if l.getLast? = some [] then l.dropLast else l
    l.map (fun line => if line.getLast? = some '\r' then line.dropLast else line)

/-! ## Data model of `slides.rs` -/

/-- Embedding of `SingleLanguageMainContentSlide` (slides.rs). -/
structure SingleLanguageMainContentSlide where
  main_text : Str
  spoiler_text : Option Str
  meta_text : Option Str
deriving Repr, DecidableEq

/-- Embedding of `TitleSlide` (slides.rs). -/
structure TitleSlide where
  title_text : Str
  meta_text : Option Str
deriving Repr, DecidableEq

/-- Embedding of `MultiLanguageMainContentSlide` (slides.rs). -/
structure MultiLanguageMainContentSlide where
  main_text_list : List Str
  spoiler_text_vector : List Str
  meta_text : Option Str
deriving Repr, DecidableEq

/-- Embedding of `EmptySlide` (slides.rs). -/
structure EmptySlide where
  black_background : Bool
deriving Repr, DecidableEq

/-- Embedding of `SimplePictureSlide` (slides.rs). -/
structure SimplePictureSlide where
  picture_path : Str
deriving Repr, DecidableEq

/-- Embedding of `SlideContent` (slides.rs). -/
inductive SlideContent where
  | SingleLanguageMainContent (s : SingleLanguageMainContentSlide)
  | Title (s : TitleSlide)
  | MultiLanguageMainContent (s : MultiLanguageMainContentSlide)
  | SimplePicture (s : SimplePictureSlide)
  | Empty (s : EmptySlide)
deriving Repr, DecidableEq

/-- Embedding of `Slide` (slides.rs). The `linked_file : Option<SongFile>`
field refers to a file-system entity (an external collaborator); it is never
set by the code modelled here, so its payload is embedded as `Unit`. -/
structure Slide where
  slide_content : SlideContent
  linked_file : Option Unit
deriving Repr, DecidableEq

/-- Embedding of `SingleLanguageMainContentSlide::new` (slides.rs): empty (after
trimming) spoiler and meta texts are normalised to `none`; a kept text stays
untrimmed. -/
def SingleLanguageMainContentSlide.new (main_text : Str)
    (spoiler_text meta_text : Option Str) : SingleLanguageMainContentSlide :=
  let parsed_spoiler_text : Option Str :=
    match spoiler_text with
    | some s => if strTrim s = [] then none else some s
    | none => none
  let parsed_meta_text : Option Str :=
    match meta_text with
    | some s => if strTrim s = [] then none else some s
    | none => none
  { main_text := main_text
    spoiler_text := parsed_spoiler_text
    meta_text := parsed_meta_text }

/-- Embedding of `Slide::new_empty_slide` (slides.rs). -/
def Slide.new_empty_slide (black_background : Bool) : Slide :=
  { slide_content := .Empty { black_background := black_background }
    linked_file := none }

/-- Embedding of `Slide::new_content_slide` (slides.rs). -/
def Slide.new_content_slide (main_text : Str) (spoiler_text meta_text : Option Str) : Slide :=
  { slide_content := .SingleLanguageMainContent
      (SingleLanguageMainContentSlide.new main_text spoiler_text meta_text)
    linked_file := none }

/-- Embedding of `Slide::new_title_slide` (slides.rs); note that unlike content
slides, title slides do not normalise an empty meta text to `none`. -/
def Slide.new_title_slide (title_text : Str) (meta_text : Option Str) : Slide :=
  { slide_content := .Title { title_text := title_text, meta_text := meta_text }
    linked_file := none }

/-- Embedding of `Slide::has_spoiler` (slides.rs). -/
def Slide.has_spoiler (slide : Slide) : Bool :=
  match slide.slide_content with
  | .SingleLanguageMainContent s => s.spoiler_text.isSome
  | .Title _ => false
  | .MultiLanguageMainContent s => !s.spoiler_text_vector.isEmpty
  | .SimplePicture _ => false
  | .Empty _ => false

/-- Embedding of `Slide::has_meta_text` (slides.rs). -/
def Slide.has_meta_text (slide : Slide) : Bool :=
  match slide.slide_content with
  | .SingleLanguageMainContent s => s.meta_text.isSome
  | .Title s => s.meta_text.isSome
  | .MultiLanguageMainContent s => s.meta_text.isSome
  | .SimplePicture _ => false
  | .Empty _ => false

/-- Embedding of `ShowMetaInformation` (slides.rs). -/
inductive ShowMetaInformation where
  | None
  | FirstSlide
  | LastSlide
  | FirstSlideAndLastSlide
deriving Repr, DecidableEq

/-- Embedding of `ShowMetaInformation::on_first_slide` (slides.rs). -/
def ShowMetaInformation.on_first_slide : ShowMetaInformation → Bool
  | .FirstSlide | .FirstSlideAndLastSlide => true
  | _ => false

/-- Embedding of `ShowMetaInformation::on_last_slide` (slides.rs). -/
def ShowMetaInformation.on_last_slide : ShowMetaInformation → Bool
  | .LastSlide | .FirstSlideAndLastSlide => true
  | _ => false

/-- Embedding of `SlideSettings` (slides.rs). The source field holding the
Handlebars template is named after that template language's syntax; it is
renamed to `meta_template` here purely for technical reasons of this
development, with unchanged meaning. -/
structure SlideSettings where
  title_slide : Bool
  show_spoiler : Bool
  show_meta_information : ShowMetaInformation
  meta_template : Str
  empty_last_slide : Bool
  max_lines : Option Nat

/-! ## The wrap engine `wrap_blocks` (slides.rs)

A *track* is one `Vec<Vec<String>>`: a list of stanzas, each a list of lines.
`wrap_blocks` receives a list of parallel tracks. Its two nested `while`
loops are embedded as fueled recursions; `moveOnce` is the body of the inner
`while line_index < ...` loop (one line moved from stanza `i` to stanza
`i+1`, at fixed removal index `s` and insertion index `m`), applied to every
track, where a non-primary track only moves a line while its own stanza still
has more than `s` lines — exactly the `if line_index < block[block_index].len()`
guard in the source. -/

/-- A stanza: one `Vec<String>` of lines. -/
abbrev Stanza := List Str

/-- A track: one `Vec<Vec<String>>` of stanzas. -/
abbrev Track := List Stanza

/-- Stanza number `i` of a track (all accesses are in bounds in the source;
out-of-range defaults to `[]`). -/
def stanzaAt (tr : Track) (i : Nat) : Stanza := tr.getD i []

/-- One iteration of the inner move loop of `wrap_blocks`, for one track:
if the stanza at `i` still has a line at index `s`, remove it there and
insert it at index `m` of the stanza at `i+1`. -/
def moveOnce (i s m : Nat) (tr : Track) : Track :=
  let st := stanzaAt tr i
  if s < st.length then
    (tr.set i (st.eraseIdx s)).set (i + 1)
      ((stanzaAt tr (i + 1)).insertIdx m (st.getD s []))
  else tr

/-- The inner `while line_index < wrapped_blocks[0][block_index].len()` loop of
`wrap_blocks`: it is governed by the primary track (track 0) and executes
`moveOnce` on every track each iteration. It terminates structurally (each
iteration shortens the primary stanza), so the fuel passed by `loopBody`
(the initial stanza length) is always sufficient. -/
def innerLoop : Nat → List Track → Nat → Nat → Nat → List Track
  | 0, tracks, _, _, _ => tracks
  | fuel + 1, tracks, i, s, m =>
    if s < (stanzaAt (tracks.headD []) i).length then
      innerLoop fuel (tracks.map (moveOnce i s m)) i s (m + 1)
    else tracks

/-- The body of the outer `while block_index < wrapped_blocks[0].len()` loop of
`wrap_blocks`, at stanza index `i`: if the primary stanza exceeds
`maximum_lines`, compute the split point, insert a fresh empty stanza at
`i+1` into every track when the primary track has no next stanza or
`persistence` is set, and run the inner move loop. -/
def loopBody (tracks : List Track) (i maximum_lines : Nat) (persistence : Bool) : List Track :=
  let t0 := tracks.headD []
  let st := stanzaAt t0 i
  if maximum_lines < st.length then
    let s := min (maximum_lines - 1) (st.length / 2)
    let tracks1 :=
      if (t0[i + 1]?).isNone || persistence then
        tracks.map (fun tr => tr.insertIdx (i + 1) ([] : Stanza))
      else tracks
    innerLoop st.length tracks1 i s 0
  else tracks

/-- The outer `while` loop of `wrap_blocks`, with explicit fuel: `none` means
the fuel was exhausted while the loop guard still held. -/
def outerLoop : Nat → List Track → Nat → Nat → Bool → Option (List Track)
  | 0, tracks, i, _, _ =>
    if i < (tracks.headD []).length then none else some tracks
  | fuel + 1, tracks, i, maximum_lines, persistence =>
    if i < (tracks.headD []).length then
      outerLoop fuel (loopBody tracks i maximum_lines persistence) (i + 1)
        maximum_lines persistence
    else some tracks

/-- Possible outcomes of a `wrap_blocks` run: a returned value, the explicit
`panic!` on a track-length mismatch, or exhaustion of the loop fuel. -/
inductive WrapOutcome where
  | ok (out : List Track)
  | panicked
  | timeout
deriving Repr, DecidableEq

/-- Embedding of `wrap_blocks` (slides.rs, lines 264-310): empty input is
returned unchanged; then every further track's stanza count is compared
against track 0's (`for i in 1..blocks.len()`, hence `blocks.tail` here) and
a mismatch panics; otherwise the outer wrap loop runs from stanza index 0. -/
def wrap_blocks (fuel : Nat) (blocks : List Track) (maximum_lines : Nat)
    (persistence : Bool) : WrapOutcome :=
  if blocks.isEmpty then .ok blocks
  else if blocks.tail.any (fun tr => tr.length != (blocks.headD []).length) then
    .panicked
  else
    match outerLoop fuel blocks 0 maximum_lines persistence with
    | some out => .ok out
    | none => .timeout

/-- The precondition of `wrap_blocks`: all tracks have the stanza count of
track 0. -/
def equal_track_lengths (blocks : List Track) : Prop :=
  ∀ tr ∈ blocks, tr.length = (blocks.headD []).length

instance (blocks : List Track) : Decidable (equal_track_lengths blocks) := by
  unfold equal_track_lengths; infer_instance

/-- Termination of the `wrap_blocks` loops, in the fueled embedding: some
fuel makes the run return a value. -/
def wrap_terminates (blocks : List Track) (maximum_lines : Nat) (persistence : Bool) : Prop :=
  ∃ fuel out, wrap_blocks fuel blocks maximum_lines persistence = .ok out

/-- Proof-layer companion of `moveOnce`, acting on the pair of stanzas
`(stanza i, stanza i+1)` of one track. -/
def movePairStep (s m : Nat) (p : Stanza × Stanza) : Stanza × Stanza :=
  if s < p.1.length then (p.1.eraseIdx s, p.2.insertIdx m (p.1.getD s [])) else p

/-- Proof-layer iteration of `movePairStep` with the insertion index advancing
by one each round, mirroring `moved_line_count` in the source. -/
def movePair (s : Nat) : Nat → Nat → Stanza × Stanza → Stanza × Stanza
  | 0, _, p => p
  | c + 1, m, p => movePair s c (m + 1) (movePairStep s m p)

/-- Proof-layer iteration of `moveOnce` on one track (the inner loop runs
`moveOnce` once per iteration on every track; per track this is the
composition below). -/
def moveIter (i s : Nat) : Nat → Nat → Track → Track
  | 0, _, tr => tr
  | c + 1, m, tr => moveIter i s c (m + 1) (moveOnce i s m tr)

/-- Total number of lines in the stanzas of a track from index `i` on. -/
def sumFrom (i : Nat) (tr : Track) : Nat := ((tr.drop i).map List.length).sum

/-- The termination measure of the outer wrap loop at stanza index `i`: the
lines remaining in track 0 from `i` on, plus the stanzas remaining. -/
def wrapMeasure (tracks : List Track) (i : Nat) : Nat :=
  sumFrom i (tracks.headD []) + ((tracks.headD []).length - i)

/-! ## Data model of `song.rs` -/

/-- Embedding of `SongPartType` (song.rs). -/
inductive SongPartType where
  | Verse
  | Chorus
  | Bridge
  | Intro
  | Outro
  | Interlude
  | Instrumental
  | Solo
  | PreChorus
  | PostChorus
  | Refrain
  | Other
deriving Repr, DecidableEq

/-- Embedding of `SongPartType::to_string` (song.rs). -/
def SongPartType.to_string : SongPartType → Str
  | .Verse => "Verse".toList
  | .Chorus => "Chorus".toList
  | .Bridge => "Bridge".toList
  | .Intro => "Intro".toList
  | .Outro => "Outro".toList
  | .Interlude => "Interlude".toList
  | .Instrumental => "Instrumental".toList
  | .Solo => "Solo".toList
  | .PreChorus => "PreChorus".toList
  | .PostChorus => "PostChorus".toList
  | .Refrain => "Refrain".toList
  | .Other => "Other".toList

/-- Embedding of `SongPartType::from_string` (song.rs): the input is lowercased
first and then compared against the listed literals, in source order. (The
`"preChorus"` and `"postChorus"` arms are kept exactly as written in the
source even though a lowercased string can never equal them.) -/
def SongPartType.from_string (s : Str) : SongPartType :=
  let s := strLower s
  if s = "verse".toList then .Verse
  else if s = "chorus".toList then .Chorus
  else if s = "bridge".toList then .Bridge
  else if s = "intro".toList then .Intro
  else if s = "outro".toList then .Outro
  else if s = "interlude".toList then .Interlude
  else if s = "instrumental".toList then .Instrumental
  else if s = "solo".toList then .Solo
  else if s = "preChorus".toList then .PreChorus
  else if s = "postChorus".toList then .PostChorus
  else if s = "refrain".toList then .Refrain
  else .Other

/-- Embedding of `SongPartType::is_repeatable` (song.rs). -/
def SongPartType.is_repeatable : SongPartType → Bool
  | .Verse => false
  | .Chorus => true
  | .Bridge => false
  | .Intro => false
  | .Outro => false
  | .Interlude => false
  | .Instrumental => false
  | .Solo => false
  | .PreChorus => true
  | .PostChorus => true
  | .Refrain => true
  | .Other => false

/-- Embedding of `LyricLanguage` (song.rs). -/
inductive LyricLanguage where
  | Default
  | Specific (lang : Str)
deriving Repr, DecidableEq

/-- Embedding of `SongPartContentType` (song.rs). -/
inductive SongPartContentType where
  | LeadVoice
  | SupranoVoice
  | AltoVoice
  | TenorVoice
  | BassVoice
  | Instrumental
  | Solo
  | Chords
  | Lyrics (language : LyricLanguage)
deriving Repr, DecidableEq

/-- Embedding of `SongPartContent` (song.rs). -/
structure SongPartContent where
  voice_type : SongPartContentType
  content : Str
deriving Repr, DecidableEq

/-- A match of the song-part-id pattern `([a-zA-Z]+)\.(\d+)` starting at the
head of the character list: a maximal nonempty run of ASCII letters, then a
dot, then at least one ASCII digit. (Since a letter can never match the dot,
the greedy scan is equivalent to the regex engine's backtracking search.) -/
def startsLettersDotDigits (cs : Str) : Bool :=
  let letters := cs.takeWhile Char.isAlpha
  let rest := cs.dropWhile Char.isAlpha
  !letters.isEmpty &&
    match rest with
    | c :: r => c = '.' && !(r.takeWhile Char.isDigit).isEmpty
    | [] => false

/-- The song-part-id regex `([a-zA-Z]+)\.(\d+)` is unanchored, so
`Regex::captures` succeeds exactly when the pattern matches starting at some
position of the string. -/
def containsLettersDotDigits (cs : Str) : Bool :=
  cs.tails.any startsLettersDotDigits

/-- Capture group 1 of the first (leftmost) match of `([a-zA-Z]+)\.(\d+)`:
the letter run of the first position where the pattern matches. -/
def firstIdCapture (cs : Str) : Str :=
  match cs.tails.find? startsLettersDotDigits with
  | some t => t.takeWhile Char.isAlpha
  | none => []

/-- Embedding of `SongPartId` (song.rs). -/
structure SongPartId where
  id : Str
  checked_unique : Bool
deriving Repr, DecidableEq

/-- Embedding of `SongPartId::parse` (song.rs, lines 409-419): the id string is
accepted (and stored unchanged, with `checked_unique = false`) exactly when
the unanchored regex `([a-zA-Z]+)\.(\d+)` finds a match somewhere in it. -/
def SongPartId.parse (id : Str) : Option SongPartId :=
  if containsLettersDotDigits id then
    some { id := id, checked_unique := false }
  else none

/-- Embedding of `SongPartId::get_id` (song.rs). -/
def SongPartId.get_id (i : SongPartId) : Str := i.id

/-- Embedding of `SongPart` (song.rs). The `is_repetition_of` and
`occurs_after` fields hold `Rc<RefCell<SongPart>>` handles in the source;
they are embedded as indices into the owning song's `parts` list (the
importer modelled here only ever stores `None` in them). -/
structure SongPart where
  id : SongPartId
  part_type : SongPartType
  number : Nat
  contents : List SongPartContent
  is_repetition_of : Option Nat
  occurs_after : Option Nat
deriving Repr, DecidableEq

/-- Decimal digit characters of a natural number, by the standard base-10
fueled recursion (the fuel `n + 1` always suffices). Embeds the formatting
done by `format!("{}", n)`. -/
def natDigitsAux : Nat → Nat → Str
  | 0, _ => []
  | fuel + 1, n =>
    if n < 10 then [Char.ofNat (48 + n)]
    else natDigitsAux fuel (n / 10) ++ [Char.ofNat (48 + n % 10)]

/-- Decimal representation of a natural number as a character list. -/
def natDigits (n : Nat) : Str := natDigitsAux (n + 1) n

/-- Embedding of `SongPart::new` (song.rs, lines 468-484): the part type is
re-derived from capture 1 of the id regex, and the `number` field is
`specific_number.unwrap_or(1)`. -/
def SongPart.new (id : SongPartId) (specific_number : Option Nat) : SongPart :=
  let part_type := SongPartType.from_string (firstIdCapture id.id)
  { id := id
    part_type := part_type
    number := specific_number.getD 1
    contents := []
    is_repetition_of := none
    occurs_after := none }

/-- Embedding of `SongPart::add_content` (song.rs). -/
def SongPart.add_content (p : SongPart) (c : SongPartContent) : SongPart :=
  { p with contents := p.contents ++ [c] }

/-- Embedding of `SongPart::set_repition` (song.rs). -/
def SongPart.set_repition (p : SongPart) (r : Option Nat) : SongPart :=
  { p with is_repetition_of := r }

/-- Modelled from the spec: `SongPart::set_type` is called by the classic
importer (chorus promotion, classic_song.rs line 91) but its definition is not
among the provided sources; per the spec the promotion step is "promote its
type to Chorus", so this sets the part's type. -/
def SongPart.set_type (p : SongPart) (t : SongPartType) : SongPart :=
  { p with part_type := t }

/-- Modelled from the spec: `SongPart::update_id` is called by the classic
importer (classic_song.rs line 94) but its definition is not among the
provided sources; per the spec the id is re-derived from the part's current
type and number ("re-derive its id accordingly"), the id format being
`<type>.<number>`. -/
def SongPart.update_id (p : SongPart) : SongPart :=
  { p with id := { id := p.part_type.to_string ++ '.' :: natDigits p.number
                   checked_unique := p.id.checked_unique } }

/-- Overwrite-or-append insertion into an association list; embeds
`HashMap::insert` up to iteration order (which is never observed). -/
def tagsInsert (tags : List (Str × Str)) (k v : Str) : List (Str × Str) :=
  if tags.any (fun p => p.1 == k) then
    tags.map (fun p => if p.1 == k then (k, v) else p)
  else tags ++ [(k, v)]

/-- Lookup in an association list; embeds `HashMap::get`. -/
def tagsGet (tags : List (Str × Str)) (k : Str) : Option Str :=
  (tags.find? (fun p => p.1 == k)).map (fun p => p.2)

/-- Embedding of `Song` (song.rs). The `part_order : Vec<PartOrderRule>` field
is omitted: it is initialised empty and never read or written by any code
modelled here. The `Rc<RefCell<SongPart>>` elements of `parts` are embedded
by value; handles into the list are embedded as indices. -/
structure Song where
  title : Str
  tags : List (Str × Str)
  parts : List SongPart
deriving Repr, DecidableEq

/-- Embedding of `Song::new` (song.rs). -/
def Song.new (title : Str) : Song :=
  { title := title, tags := [], parts := [] }

/-- Embedding of `Song::add_tag` (song.rs). -/
def Song.add_tag (song : Song) (key value : Str) : Song :=
  { song with tags := tagsInsert song.tags key value }

/-- Embedding of `Song::get_tag` (song.rs). -/
def Song.get_tag (song : Song) (key : Str) : Option Str :=
  tagsGet song.tags key

/-- Embedding of `Song::add_part` (song.rs). -/
def Song.add_part (song : Song) (part : SongPart) : Song :=
  { song with parts := song.parts ++ [part] }

/-- Embedding of `Song::get_part_count` (song.rs): the number of parts whose
type equals the given one. -/
def Song.get_part_count (song : Song) (part_type : SongPartType) : Nat :=
  (song.parts.filter (fun p => p.part_type == part_type)).length

/-- Embedding of `Song::get_total_part_count` (song.rs). -/
def Song.get_total_part_count (song : Song) : Nat := song.parts.length

/-- Embedding of `Song::add_part_of_type` (song.rs, lines 74-89): the id string
is `format!("{}.{}", type, specific_number.unwrap_or_else(count + 1))`, parsed
back through `SongPartId::parse` (whose `.unwrap()` cannot fail on such a
string, so the `getD` default is the identical payload), and the part is
appended. The source returns an `Rc` handle to the appended part; here the
caller reads it back as the last element of `parts`. -/
def Song.add_part_of_type (song : Song) (part_type : SongPartType)
    (specific_number : Option Nat) : Song :=
  let idStr := part_type.to_string ++ '.' ::
    natDigits (specific_number.getD (song.get_part_count part_type + 1))
  let part := SongPart.new
    ((SongPartId.parse idStr).getD { id := idStr, checked_unique := false })
    specific_number
  song.add_part part

/-- Embedding of `Song::find_content_in_part` (song.rs, lines 160-172): for
every part in order and every content item of the part, a case-insensitive
full comparison against the search string; each hit pushes (the handle of,
here: the index of) the part. -/
def Song.find_content_in_part (song : Song) (content : Str) : List Nat :=
  (song.parts.enum.map (fun p =>
    p.2.contents.filterMap (fun c =>
      if strLower c.content == strLower content then some p.1 else none))).flatten

/-- Embedding of `Song::find_first_content_in_part` (song.rs). -/
def Song.find_first_content_in_part (song : Song) (content : Str) : Option Nat :=
  (song.find_content_in_part content).head?

/-- A placeholder part used as the (unreachable) default of indexed accesses
into a song's `parts` list. -/
def defaultPart : SongPart :=
  { id := { id := [], checked_unique := false }
    part_type := .Verse
    number := 1
    contents := []
    is_repetition_of := none
    occurs_after := none }

/-- Apply a mutation to the most recently appended part of a song; embeds
mutating through the `Rc<RefCell<..>>` handle that `add_part_of_type` returned
(which always aliases the last element of `parts`). -/
def Song.modifyLastPart (song : Song) (f : SongPart → SongPart) : Song :=
  { song with
    parts := song.parts.set (song.parts.length - 1)
      (f (song.parts.getD (song.parts.length - 1) defaultPart)) }

/-! ## The classic-song importer (`importer/classic_song.rs`, `importer/metadata.rs`)

The two regexes used on tag lines are embedded as character scanners:
* `\s*#(\w+):\s*(.+)$` (multi-line, unanchored; classic_song.rs): on each line,
  search left to right for a `#` followed by a nonempty run of word characters
  and a colon; capture 2 is the rest of the line with leading whitespace
  consumed greedily, except that when the rest is nonempty but all whitespace
  the greedy `\s*` backtracks one character so that `.+` captures the last
  whitespace character. A `#` where the pattern fails resumes the search.
* `^\s*#(\w+):\s*(.+)$` (multi-line, anchored; metadata.rs): the same, but the
  `#` must be the first non-whitespace character of the line, and both
  captures are trimmed before use.
A `\s*` in these patterns can in principle also consume the newline at the end
of a line whose remainder is empty and continue on the next line; this corner
is not modelled (the scanners work line by line), and no theorem below
depends on it. -/

/-- A word character of the regex class `\w`. -/
def isWordChar (c : Char) : Bool := c.isAlphanum || c == '_'

/-- Scanner for one line against the unanchored tag regex
`\s*#(\w+):\s*(.+)$` of classic_song.rs (captures untrimmed). -/
def scan_tag_line : Str → Option (Str × Str)
  | [] => none
  | c :: rest =>
    if c = '#' then
      let w := rest.takeWhile isWordChar
      let r := rest.dropWhile isWordChar
      match w, r with
      | _ :: _, ':' :: r2 =>
        if r2.isEmpty then scan_tag_line rest
        else
          let v := r2.dropWhile Char.isWhitespace
          some (w, if v.isEmpty then r2.reverse.take 1 else v)
      | _, _ => scan_tag_line rest
    else scan_tag_line rest

/-- Embedding of the tag branch of `parse_block` (classic_song.rs, lines
36-61): every tag-line match in the block adds a lowercased-key tag, and a
`title` key additionally sets the song title. -/
def parse_block_tags (block : Str) (song : Song) : Song :=
  (rust_lines block).foldl (fun s line =>
    match scan_tag_line line with
    | some kv =>
      let tag_lowercase := strLower kv.1
      let s := s.add_tag tag_lowercase kv.2
      if tag_lowercase = "title".toList then { s with title := kv.2 } else s
    | none => s) song

/-- Embedding of `parse_block` (classic_song.rs, lines 28-98). An empty block
is returned unchanged; a block starting with `#` runs the tag branch; any
other block is content: if no previously added part holds the same text
(case-insensitively), a new Verse part with one default-language Lyrics
content is appended (`is_repetition_of` unset); otherwise the most recently
added matching part is promoted in place: type set to Chorus, number set
to 1, id re-derived. -/
def parse_block (block : Str) (song : Song) : Song :=
  if block.isEmpty then song
  else if block.head? = some '#' then parse_block_tags block song
  else
    let content_vector := song.find_content_in_part block
    match content_vector.getLast? with
    | none =>
      let song1 := song.add_part_of_type .Verse none
      song1.modifyLastPart (fun p =>
        (p.add_content { voice_type := .Lyrics .Default, content := block }).set_repition none)
    | some idx =>
      { song with
        parts := song.parts.set idx
          (SongPart.update_id
            { SongPart.set_type (song.parts.getD idx defaultPart) .Chorus with number := 1 }) }

/-- Scanner for the title regex `\s*#title:\s*(.+?)$` (multi-line,
case-sensitive; metadata.rs `get_title_from_file_content`): find the leftmost
occurrence of `#title:` whose line remainder is nonempty and capture that
remainder (leading whitespace consumed, with the same all-whitespace
backtracking as the tag scanner); an occurrence with an empty remainder is
skipped and the search continues. -/
def scan_title : Str → Option Str
  | [] => none
  | c :: rest =>
    if (c :: rest).take 7 = "#title:".toList then
      let lineRest := (rest.drop 6).takeWhile (fun ch => ch ≠ '\n')
      if lineRest.isEmpty then scan_title rest
      else
        let v := lineRest.dropWhile Char.isWhitespace
        some (if v.isEmpty then lineRest.reverse.take 1 else v)
    else scan_title rest

/-- Embedding of `get_title_from_file_content` (metadata.rs). -/
def get_title_from_file_content (content : Str) : Option Str :=
  scan_title content

/-- Embedding of the error values of `importer/errors.rs` that an import can
surface. -/
inductive CantaraImportError where
  | noContent
  | unknownFileExtension (file_extension : Str)
  | unknownBlock (block : Str)
  | fileDoesNotExist
deriving Repr, DecidableEq

/-- Embedding of `import_song` (classic_song.rs, lines 104-140): an empty
input (not trimmed) errors with `noContent`; otherwise the title is extracted
(empty if absent), and the trimmed content is scanned line by line, each line
trimmed and accumulated (with a newline) into the current block, a blank line
flushing a nonempty current block through `parse_block`, with a final flush
after the loop. `parse_block` never fails, so the `.unwrap()` calls on it
cannot panic and the import has no other failure mode. -/
def import_song (content : Str) : Except CantaraImportError Song :=
  if content.isEmpty then .error .noContent
  else
    let title := (get_title_from_file_content content).getD []
    let song := Song.new title
    let res := (rust_lines (strTrim content)).foldl
      (fun (acc : Song × Str) line =>
        if (strTrim line).isEmpty then
          if acc.2.isEmpty then acc
          else (parse_block acc.2 acc.1, [])
        else (acc.1, acc.2 ++ strTrim line ++ ['\n']))
      (song, [])
    .ok (if res.2.isEmpty then res.1 else parse_block res.2 res.1)

/-- Scanner for one line against the anchored metadata regex
`^\s*#(\w+):\s*(.+)$` of metadata.rs (key and value trimmed, as in the
source's `.trim()` calls). -/
def parse_metadata_line (line : Str) : Option (Str × Str) :=
  match line.dropWhile Char.isWhitespace with
  | '#' :: rest =>
    let w := rest.takeWhile isWordChar
    let r := rest.dropWhile isWordChar
    (match w, r with
     | _ :: _, ':' :: r2 =>
       if r2.isEmpty then none
       else
         let v := r2.dropWhile Char.isWhitespace
         some (strTrim w, strTrim (if v.isEmpty then r2.reverse.take 1 else v))
     | _, _ => none)
  | _ => none

/-- Embedding of `parse_metadata_block` (metadata.rs): every matching line
inserts its lowercased key with last-write-wins semantics. -/
def parse_metadata_block (block : Str) : List (Str × Str) :=
  (rust_lines block).foldl (fun md line =>
    match parse_metadata_line line with
    | some kv => tagsInsert md (strLower kv.1) kv.2
    | none => md) []

/-- State of the line scan of `slides_from_classic_song` (classic_song.rs,
lines 164-184): the `WritingArea` enum is embedded as the boolean
`writing_secondary`. Note that the source never resets `empty_line` to
`false`, so after the first blank line `start_block_flag` is re-raised on
every line; this quirk is embedded as-is. -/
structure AsmState where
  empty_line : Bool
  start_block_flag : Bool
  meta_block_flag : Bool
  blocks : List Stanza
  secondary_blocks : List Stanza
  cur_block_string : Str
  cur_secundary_block_string : Str
  metadata : List (Str × Str)
  writing_secondary : Bool
deriving Repr, DecidableEq

/-- The initial scan state of `slides_from_classic_song`. -/
def initAsmState : AsmState :=
  { empty_line := false
    start_block_flag := true
    meta_block_flag := false
    blocks := []
    secondary_blocks := []
    cur_block_string := []
    cur_secundary_block_string := []
    metadata := []
    writing_secondary := false }

/-- Embedding of the local function `handle_block` of `slides_from_classic_song`
(classic_song.rs, lines 188-220): a meta block merges its parsed tags into the
metadata (backfilling a missing `title` with the backup title); a content
block whose main text is nonempty after trimming appends its lines and the
secondary lines as one new entry to each of the two parallel sequences. -/
def handle_block (metadata : List (Str × Str)) (meta_block_flag : Bool)
    (backup_title : Str) (cur_block_string cur_secundary_block_string : Str)
    (blocks secondary_blocks : List Stanza) :
    List (Str × Str) × List Stanza × List Stanza :=
  if meta_block_flag then
    let md := (parse_metadata_block cur_block_string).foldl
      (fun m kv => tagsInsert m kv.1 kv.2) metadata
    let md := if tagsGet md "title".toList = none then
        tagsInsert md "title".toList backup_title
      else md
    (md, blocks, secondary_blocks)
  else
    if (strTrim cur_block_string).isEmpty then (metadata, blocks, secondary_blocks)
    else
      (metadata,
       blocks ++ [rust_lines cur_block_string],
       secondary_blocks ++ [rust_lines cur_secundary_block_string])

/-- One iteration of the line scan of `slides_from_classic_song`
(classic_song.rs, lines 222-272). -/
def asmStep (backup_title : Str) (st : AsmState) (line : Str) : AsmState :=
  let st := if st.empty_line then { st with start_block_flag := true } else st
  let st :=
    if st.start_block_flag && !line.isEmpty then
      { st with meta_block_flag := line.head? == some '#', start_block_flag := false }
    else st
  if (strTrim line).isEmpty then
    let st := { st with empty_line := true, writing_secondary := false }
    if st.cur_block_string.isEmpty then st
    else
      let r := handle_block st.metadata st.meta_block_flag backup_title
        st.cur_block_string st.cur_secundary_block_string st.blocks st.secondary_blocks
      { st with
        metadata := r.1
        blocks := r.2.1
        secondary_blocks := r.2.2
        cur_block_string := []
        cur_secundary_block_string := [] }
  else if strTrim line = "---".toList then
    { st with writing_secondary := true }
  else if st.writing_secondary then
    { st with cur_secundary_block_string := st.cur_secundary_block_string ++ '\n' :: line }
  else
    { st with cur_block_string := st.cur_block_string ++ '\n' :: line }

/-- The result of the assembly phase of `slides_from_classic_song`: the two
parallel stanza sequences and the metadata map. -/
structure AsmOut where
  blocks : List Stanza
  secondary_blocks : List Stanza
  metadata : List (Str × Str)
deriving Repr, DecidableEq

/-- The assembly phase of `slides_from_classic_song` (classic_song.rs, lines
222-280): scan the trimmed content line by line and flush the last block
unconditionally after the loop. -/
def assembleBlocks (content : Str) (backup_title : Str) : AsmOut :=
  let fin := (rust_lines (strTrim content)).foldl (asmStep backup_title) initAsmState
  let r := handle_block fin.metadata fin.meta_block_flag backup_title
    fin.cur_block_string fin.cur_secundary_block_string fin.blocks fin.secondary_blocks
  { blocks := r.2.1, secondary_blocks := r.2.2, metadata := r.1 }

/-- The external Handlebars rendering collaborator (`render_metadata`,
templating.rs): a pure function from a template and a metadata map to a
rendered string or a render error. -/
abbrev RenderFn := Str → List (Str × Str) → Except Unit Str

/-- Embedding of `str::join("\n")` on a stanza's lines. -/
def joinLines (st : Stanza) : Str := List.intercalate ['\n'] st

/-- The synthesis phase of `slides_from_classic_song` (classic_song.rs, lines
288-365), operating on the (possibly wrapped) parallel stanza sequences: the
meta text is rendered once (a render error or empty result disables it); a
missing metadata `title` is backfilled with the backup title; an optional
title slide carries the meta text whenever it is showable; each stanza yields
one content slide whose meta text is attached iff
`(showable && policy.on_first_slide && index == 1) ||
(policy.on_last_slide && index == count - 1)` over the stanza index, and whose
spoiler is the secondary stanza if nonempty, else the next stanza's main text
if any; an optional trailing empty slide ends the list. The source's
`secondary_blocks.get(index).unwrap()` is embedded as `getD index []` (the
two sequences always have equal length at every call site, see the claim
about `handle_block`). -/
def synthesizeSlides (blocks secondary_blocks : List Stanza)
    (metadata : List (Str × Str)) (settings : SlideSettings) (render : RenderFn)
    (backup_title : Str) : List Slide :=
  let renderResult := render settings.meta_template metadata
  let meta_text : Str := match renderResult with
    | .ok s => s
    | .error _ => []
  let meta_text_showable : Bool := match renderResult with
    | .ok s => !s.isEmpty
    | .error _ => false
  let metadata := if tagsGet metadata "title".toList = none then
      tagsInsert metadata "title".toList backup_title
    else metadata
  let titleSlides : List Slide :=
    if settings.title_slide then
      [Slide.new_title_slide ((tagsGet metadata "title".toList).getD [])
        (if meta_text_showable then some meta_text else none)]
    else []
  let count := blocks.length
  let contentSlides : List Slide := blocks.enum.map (fun p =>
    let displayed_meta_text : Option Str :=
      if (meta_text_showable && settings.show_meta_information.on_first_slide
            && p.1 == 1)
          || (settings.show_meta_information.on_last_slide && p.1 == count - 1) then
        some meta_text
      else none
    let secondary_block := secondary_blocks.getD p.1 []
    if secondary_block.isEmpty then
      match blocks[p.1 + 1]? with
      | some next_block =>
        Slide.new_content_slide (joinLines p.2) (some (joinLines next_block))
          displayed_meta_text
      | none =>
        Slide.new_content_slide (joinLines p.2) none displayed_meta_text
    else
      Slide.new_content_slide (joinLines p.2) (some (joinLines secondary_block))
        displayed_meta_text)
  (titleSlides ++ contentSlides) ++
    (if settings.empty_last_slide then [Slide.new_empty_slide false] else [])

/-- Embedding of `slides_from_classic_song` (classic_song.rs, lines 151-367):
assembly, then (if `max_lines` is set) the wrap engine over the two parallel
sequences, then slide synthesis. The `fuel` drives the wrap loop only; `none`
is returned if that loop's fuel runs out or its (here unreachable) panic
fires, situations in which the source would not return normally either. -/
def slides_from_classic_song (fuel : Nat) (content : Str)
    (slide_settings : SlideSettings) (render : RenderFn) (backup_title : Str) :
    Option (List Slide) :=
  let asm := assembleBlocks content backup_title
  match slide_settings.max_lines with
  | some m =>
    match wrap_blocks fuel [asm.blocks, asm.secondary_blocks] m true with
    | .ok out =>
      some (synthesizeSlides (out.getD 0 []) (out.getD 1 []) asm.metadata
        slide_settings render backup_title)
    | _ => none
  | none =>
    some (synthesizeSlides asm.blocks asm.secondary_blocks asm.metadata
      slide_settings render backup_title)

/-- The id pattern as the *spec* reads it (claim C9): the whole string is one
or more ASCII letters, a dot, one or more digits, and nothing else. This
definition follows the claim's words and exists only to be compared against
the code's `SongPartId.parse`. -/
def spec_whole_id_form (s : Str) : Bool :=
  let letters := s.takeWhile Char.isAlpha
  let rest := s.dropWhile Char.isAlpha
  !letters.isEmpty &&
    match rest with
    | '.' :: r => !r.isEmpty && r.all Char.isDigit
    | _ => false

/-! ## Theorems -/

/-! ### Claim C10: `show_spoiler` has no influence on the produced slides -/

/-- Claim C10: for every fuel, content, slide settings, render collaborator
and backup title, the slide sequence produced by `slides_from_classic_song`
is the same for any value of the `show_spoiler` setting — the setting is
never read by the slide generator. -/
theorem c10_show_spoiler_never_read (fuel : Nat) (content : Str)
    (settings : SlideSettings) (render : RenderFn) (backup_title : Str) (b : Bool) :
    slides_from_classic_song fuel content { settings with show_spoiler := b }
        render backup_title
      = slides_from_classic_song fuel content settings render backup_title := by
  cases settings
  rfl

/-! ### Claim C3: the `NoContent` error condition of `import_song` -/

/-- Counterexample to claim C3: the whitespace-only input `" "` is empty after
trimming, yet `import_song` returns `Ok` (an empty song) rather than the
`NoContent` error — the source tests `content.is_empty()` on the untrimmed
input. -/
theorem c3_counterexample :
    (import_song " ".toList) = .ok (Song.new []) ∧ strTrim " ".toList = [] := by
  constructor <;> rfl

/-- Claim C3 as amended: `import_song` returns the `NoContent` error exactly
for the empty string (not: empty after trimming), and every other input
produces a song — there is no other failure mode. -/
theorem c3_nocontent_iff_empty_untrimmed (content : Str) :
    ((import_song content) = .error .noContent ↔ content = []) ∧
    ((import_song content).isOk ↔ content ≠ []) := by
  cases content with
  | nil => simp [import_song, Except.isOk, Except.toBool]
  | cons c cs => simp [import_song, Except.isOk, Except.toBool]

/-! ### Claim C8: the `number` field of a part added without a number -/

/-- Claim C8 (evaluation of the code at the failing input): adding a second
Verse part through `add_part_of_type` with no specific number yields a part
whose id string is `"Verse.2"` (the count-of-existing-parts-plus-one goes
into the id) but whose `number` field is `1`, because `SongPart::new` sets
`number := specific_number.unwrap_or(1)`. The claim's `number == 2` is
therefore not what the code computes. -/
theorem c8_second_verse_number_is_one :
    ((((Song.new "T".toList).add_part_of_type .Verse none).add_part_of_type
        .Verse none).parts.getD 1 defaultPart).number = 1 ∧
    ((((Song.new "T".toList).add_part_of_type .Verse none).add_part_of_type
        .Verse none).parts.getD 1 defaultPart).id.id = "Verse.2".toList ∧
    (((Song.new "T".toList).add_part_of_type .Verse none).add_part_of_type
        .Verse none).get_part_count .Verse = 2 := by
  refine ⟨rfl, rfl, rfl⟩

/-! ### Claim C9: the strings accepted by `SongPartId::parse` -/

theorem takeWhile_append_all {p : Char → Bool} {b : Str} (x : Str)
    (hb : ∀ c ∈ b, p c = true) :
    (b ++ x).takeWhile p = b ++ x.takeWhile p := by
  induction b with
  | nil => rfl
  | cons c cs ih =>
    simp only [List.cons_append, List.takeWhile_cons,
      hb c (List.mem_cons_self c cs), if_true]
    rw [ih (fun d hd => hb d (List.mem_cons_of_mem c hd))]

theorem dropWhile_append_all {p : Char → Bool} {b : Str} (x : Str)
    (hb : ∀ c ∈ b, p c = true) :
    (b ++ x).dropWhile p = x.dropWhile p := by
  induction b with
  | nil => rfl
  | cons c cs ih =>
    simp only [List.cons_append, List.dropWhile_cons,
      hb c (List.mem_cons_self c cs), if_true]
    exact ih (fun d hd => hb d (List.mem_cons_of_mem c hd))

/-- The head-anchored scanner accepts a character list exactly when it starts
with a nonempty ASCII-letter run, a dot, and at least one digit. -/
theorem startsLettersDotDigits_iff (t : Str) :
    startsLettersDotDigits t = true ↔
      ∃ b c d : Str, t = b ++ '.' :: (c ++ d) ∧ b ≠ [] ∧
        (∀ ch ∈ b, ch.isAlpha = true) ∧ c ≠ [] ∧ (∀ ch ∈ c, ch.isDigit = true) := by
  constructor
  · intro h
    unfold startsLettersDotDigits at h
    rw [Bool.and_eq_true] at h
    obtain ⟨hne, hrest⟩ := h
    rcases hr : t.dropWhile Char.isAlpha with _ | ⟨ch, r⟩
    · rw [hr] at hrest; simp at hrest
    · rw [hr] at hrest
      rw [Bool.and_eq_true, decide_eq_true_eq] at hrest
      obtain ⟨hdot, hdig⟩ := hrest
      subst hdot
      refine ⟨t.takeWhile Char.isAlpha, r.takeWhile Char.isDigit,
        r.dropWhile Char.isDigit, ?_, ?_, ?_, ?_, ?_⟩
      · rw [List.takeWhile_append_dropWhile Char.isDigit r]
        rw [← hr, List.takeWhile_append_dropWhile]
      · intro hempty
        rw [hempty] at hne; simp at hne
      · exact fun ch hch => List.mem_takeWhile_imp hch
      · intro hempty
        rw [hempty] at hdig; simp at hdig
      · exact fun ch hch => List.mem_takeWhile_imp hch
  · rintro ⟨b, c, d, rfl, hbne, hball, hcne, hcall⟩
    unfold startsLettersDotDigits
    rw [takeWhile_append_all _ hball, dropWhile_append_all _ hball]
    have hdot : (('.' :: (c ++ d)).takeWhile Char.isAlpha) = [] := by
      simp [List.takeWhile_cons]
    have hdrop : (('.' :: (c ++ d)).dropWhile Char.isAlpha) = '.' :: (c ++ d) := by
      simp [List.dropWhile_cons]
    rw [hdot, hdrop]
    rcases c with _ | ⟨ch, c'⟩
    · exact absurd rfl hcne
    · simp only [List.cons_append, List.takeWhile_cons,
        hcall ch (List.mem_cons_self ch c'), if_true]
      simp [hbne]

/-- Counterexample to claim C9: `"xverse.1x"` is not of the whole-string form
letters-dot-digits (it neither starts with the letter run followed
immediately by the dot, nor ends right after the digits), yet
`SongPartId::parse` accepts it, because the regex `([a-zA-Z]+)\.(\d+)` is
applied unanchored and matches the substring `"verse.1"`. -/
theorem c9_counterexample :
    (SongPartId.parse "xverse.1x".toList).isSome = true ∧
    spec_whole_id_form "xverse.1x".toList = false := by
  exact ⟨rfl, rfl⟩

/-- Claim C9 as amended: `SongPartId::parse` returns `some` exactly for the
strings that *contain, starting at some position,* one or more ASCII letters
followed by a dot followed by one or more digits (with arbitrary text around
this match) — the unanchored-regex acceptance condition — and `none`
otherwise. -/
theorem c9_parse_accepts_iff_contains_pattern (s : Str) :
    (SongPartId.parse s).isSome = true ↔
      ∃ a b c d : Str, s = a ++ (b ++ '.' :: (c ++ d)) ∧ b ≠ [] ∧
        (∀ ch ∈ b, ch.isAlpha = true) ∧ c ≠ [] ∧ (∀ ch ∈ c, ch.isDigit = true) := by
  have hparse : (SongPartId.parse s).isSome = true ↔ containsLettersDotDigits s = true := by
    unfold SongPartId.parse
    by_cases h : containsLettersDotDigits s = true
    · simp [h]
    · simp [h]
  rw [hparse]
  unfold containsLettersDotDigits
  rw [List.any_eq_true]
  constructor
  · rintro ⟨t, ht, hstart⟩
    obtain ⟨b, c, d, rfl, hb, hball, hc, hcall⟩ := (startsLettersDotDigits_iff t).mp hstart
    obtain ⟨a, ha⟩ := (List.mem_tails _ _).mp ht
    exact ⟨a, b, c, d, ha.symm, hb, hball, hc, hcall⟩
  · rintro ⟨a, b, c, d, rfl, hb, hball, hc, hcall⟩
    refine ⟨b ++ '.' :: (c ++ d), ?_, ?_⟩
    · exact (List.mem_tails _ _).mpr (List.suffix_append a _)
    · exact (startsLettersDotDigits_iff _).mpr ⟨b, c, d, rfl, hb, hball, hc, hcall⟩

/-! ### Claim C7: the panic condition of `wrap_blocks` -/

/-- Claim C7: `wrap_blocks` panics exactly when the input is non-empty,
contains at least two tracks, and some track's stanza count differs from
track 0's; in particular, under the equal-track-lengths precondition the
panic is unreachable. (Stated for `maximum_lines ≥ 1`; for `maximum_lines =
0` the subtraction `maximum_lines - 1` in the source can overflow, whose
effect is build-configuration dependent and not modelled.) -/
theorem c7_panic_iff_track_mismatch (fuel : Nat) (blocks : List Track)
    (maximum_lines : Nat) (persistence : Bool) (hmax : 1 ≤ maximum_lines) :
    (wrap_blocks fuel blocks maximum_lines persistence = .panicked ↔
      (2 ≤ blocks.length ∧ ∃ tr ∈ blocks, tr.length ≠ (blocks.headD []).length)) ∧
    (equal_track_lengths blocks →
      wrap_blocks fuel blocks maximum_lines persistence ≠ .panicked) := by
  have main : wrap_blocks fuel blocks maximum_lines persistence = .panicked ↔
      (2 ≤ blocks.length ∧ ∃ tr ∈ blocks, tr.length ≠ (blocks.headD []).length) := by
    rcases blocks with _ | ⟨b, bs⟩
    · constructor
      · intro h; cases h
      · rintro ⟨h2, -⟩; simp at h2
    · unfold wrap_blocks
      simp only [List.isEmpty_cons, List.tail_cons, List.headD_cons]
      by_cases hany : bs.any (fun tr => tr.length != b.length) = true
      · rw [if_neg (by simp), if_pos hany]
        obtain ⟨tr, htr, hne⟩ := List.any_eq_true.mp hany
        rw [bne_iff_ne] at hne
        constructor
        · intro _
          refine ⟨?_, tr, List.mem_cons_of_mem b htr, hne⟩
          rcases bs with _ | ⟨b2, bs2⟩
          · cases htr
          · simp only [List.length_cons]; omega
        · intro _; rfl
      · rw [if_neg (by simp), if_neg hany]
        constructor
        · intro h
          rcases houter : outerLoop fuel (b :: bs) 0 maximum_lines persistence with
            _ | out <;> rw [houter] at h <;> cases h
        · rintro ⟨-, tr, htr, hne⟩
          exfalso
          apply hany
          rw [List.any_eq_true]
          rcases List.mem_cons.mp htr with rfl | htr'
          · exact absurd rfl hne
          · exact ⟨tr, htr', bne_iff_ne.mpr hne⟩
  refine ⟨main, fun heq hpan => ?_⟩
  obtain ⟨-, tr, htr, hne⟩ := main.mp hpan
  exact hne (heq tr htr)

/-- Witness for claim C7 at concrete inputs: a two-track input with stanza
counts 1 and 2 panics, and one with equal counts does not. -/
theorem c7_witness :
    wrap_blocks 5 [[["a".toList]], [["b".toList], ["c".toList]]] 2 true = .panicked ∧
    wrap_blocks 5 [[["a".toList]], [["b".toList]]] 2 true ≠ .panicked := by
  constructor
  · exact (c7_panic_iff_track_mismatch 5 _ 2 true (by decide)).1.mpr (by decide)
  · exact (c7_panic_iff_track_mismatch 5 _ 2 true (by decide)).2 (by decide)

/-! ### Claim C6: `blocks` and `secondary_blocks` stay the same length -/

theorem handle_block_appends (metadata : List (Str × Str)) (meta_block_flag : Bool)
    (backup_title cur_block_string cur_secundary_block_string : Str)
    (blocks secondary_blocks : List Stanza) :
    ((handle_block metadata meta_block_flag backup_title cur_block_string
        cur_secundary_block_string blocks secondary_blocks).2.1,
     (handle_block metadata meta_block_flag backup_title cur_block_string
        cur_secundary_block_string blocks secondary_blocks).2.2) =
    if meta_block_flag = false ∧ (strTrim cur_block_string).isEmpty = false then
      (blocks ++ [rust_lines cur_block_string],
       secondary_blocks ++ [rust_lines cur_secundary_block_string])
    else (blocks, secondary_blocks) := by
  unfold handle_block
  cases meta_block_flag
  · cases hempty : (strTrim cur_block_string).isEmpty <;> simp [hempty]
  · simp

theorem handle_block_parallel (metadata : List (Str × Str)) (meta_block_flag : Bool)
    (backup_title cur_block cur_secundary : Str) (blocks secondary_blocks : List Stanza)
    (h : blocks.length = secondary_blocks.length) :
    (handle_block metadata meta_block_flag backup_title cur_block cur_secundary
        blocks secondary_blocks).2.1.length =
    (handle_block metadata meta_block_flag backup_title cur_block cur_secundary
        blocks secondary_blocks).2.2.length := by
  unfold handle_block
  split
  · simpa using h
  · split
    · simpa using h
    · simp [h]

theorem asmStep_preserves_parallel (backup_title : Str) (st : AsmState) (line : Str)
    (h : st.blocks.length = st.secondary_blocks.length) :
    (asmStep backup_title st line).blocks.length =
      (asmStep backup_title st line).secondary_blocks.length := by
  unfold asmStep
  simp only [apply_ite AsmState.blocks, apply_ite AsmState.secondary_blocks,
    apply_ite AsmState.metadata, apply_ite AsmState.meta_block_flag,
    apply_ite AsmState.cur_block_string, apply_ite AsmState.cur_secundary_block_string,
    ite_self]
  split_ifs <;> first | exact h | exact handle_block_parallel _ _ _ _ _ _ _ h

theorem foldl_asmStep_parallel (backup_title : Str) (lines : List Str) (st : AsmState)
    (h : st.blocks.length = st.secondary_blocks.length) :
    (lines.foldl (asmStep backup_title) st).blocks.length =
      (lines.foldl (asmStep backup_title) st).secondary_blocks.length := by
  induction lines generalizing st with
  | nil => exact h
  | cons l ls ih =>
    exact ih _ (asmStep_preserves_parallel backup_title st l h)

/-- Claim C6: the two parallel sequences assembled by
`slides_from_classic_song` have equal length at the end of assembly, and each
`handle_block` call appends exactly one entry to both sequences (when the
block is a content block with nonempty trimmed main text) or to neither —
stated as an exact equation on the pair of output sequences. -/
theorem c6_blocks_parallel :
    (∀ content backup_title : Str,
      (assembleBlocks content backup_title).blocks.length =
        (assembleBlocks content backup_title).secondary_blocks.length) ∧
    (∀ (metadata : List (Str × Str)) (meta_block_flag : Bool)
        (backup_title cur_block cur_secundary : Str) (blocks secondary_blocks : List Stanza),
      ((handle_block metadata meta_block_flag backup_title cur_block
          cur_secundary blocks secondary_blocks).2.1,
       (handle_block metadata meta_block_flag backup_title cur_block
          cur_secundary blocks secondary_blocks).2.2) =
      if meta_block_flag = false ∧ (strTrim cur_block).isEmpty = false then
        (blocks ++ [rust_lines cur_block], secondary_blocks ++ [rust_lines cur_secundary])
      else (blocks, secondary_blocks)) := by
  refine ⟨fun content backup_title => ?_, handle_block_appends⟩
  unfold assembleBlocks
  set fin := (rust_lines (strTrim content)).foldl (asmStep backup_title) initAsmState with hfin
  have hpar : fin.blocks.length = fin.secondary_blocks.length := by
    rw [hfin]
    exact foldl_asmStep_parallel backup_title _ initAsmState rfl
  have := handle_block_appends fin.metadata fin.meta_block_flag backup_title
    fin.cur_block_string fin.cur_secundary_block_string fin.blocks fin.secondary_blocks
  by_cases hc : fin.meta_block_flag = false ∧ (strTrim fin.cur_block_string).isEmpty = false
  · rw [if_pos hc] at this
    have e1 := congrArg Prod.fst this
    have e2 := congrArg Prod.snd this
    simp only at e1 e2
    simp [e1, e2, hpar]
  · rw [if_neg hc] at this
    have e1 := congrArg Prod.fst this
    have e2 := congrArg Prod.snd this
    simp only at e1 e2
    simp [e1, e2, hpar]

/-! ### Claim C2: chorus promotion on repeated content -/

theorem parse_block_promotes (song : Song) (block : Str) (idx : Nat)
    (h1 : block ≠ []) (h2 : block.head? ≠ some '#')
    (h3 : (song.find_content_in_part block).getLast? = some idx) :
    parse_block block song =
      { song with
        parts := song.parts.set idx
          (SongPart.update_id
            { SongPart.set_type (song.parts.getD idx defaultPart) .Chorus with
                number := 1 }) } := by
  rcases block with _ | ⟨c, cs⟩
  · exact absurd rfl h1
  · unfold parse_block
    rw [if_neg (by simp), if_neg h2]
    simp only [h3]

theorem parse_block_first_verse (t : Str) (c : Char) (cs : Str)
    (h2 : (c :: cs).head? ≠ some '#') :
    parse_block (c :: cs) (Song.new t) =
      { title := t
        tags := []
        parts := [{ id := { id := "Verse.1".toList, checked_unique := false }
                    part_type := .Verse
                    number := 1
                    contents := [{ voice_type := .Lyrics .Default, content := c :: cs }]
                    is_repetition_of := none
                    occurs_after := none }] } := by
  unfold parse_block
  rw [if_neg (by simp), if_neg h2]
  rfl

/-- Claim C2: when a content block's text matches (case-insensitively) the
content of one or more previously added parts, `parse_block` promotes the
most recently added matching part in place — type set to Chorus, number set
to 1, id re-derived — and appends nothing; consequently two blocks whose
texts are case-insensitively equal produce a song with exactly one Chorus
part and zero Verse parts. (`SongPart::set_type` and `SongPart::update_id`
are modelled from the spec, their sources not being provided.) -/
theorem c2_chorus_promotion :
    (∀ (song : Song) (block : Str) (idx : Nat),
      block ≠ [] → block.head? ≠ some '#' →
      (song.find_content_in_part block).getLast? = some idx →
      parse_block block song =
        { song with
          parts := song.parts.set idx
            (SongPart.update_id
              { SongPart.set_type (song.parts.getD idx defaultPart) .Chorus with
                  number := 1 }) }) ∧
    (∀ (b1 b2 t : Str), b1 ≠ [] → b2 ≠ [] →
      b1.head? ≠ some '#' → b2.head? ≠ some '#' → strLower b1 = strLower b2 →
      (parse_block b2 (parse_block b1 (Song.new t))).get_part_count .Chorus = 1 ∧
      (parse_block b2 (parse_block b1 (Song.new t))).get_part_count .Verse = 0) := by
  refine ⟨parse_block_promotes, ?_⟩
  intro b1 b2 t hb1 hb2 hh1 hh2 hlow
  rcases b1 with _ | ⟨c, cs⟩
  · exact absurd rfl hb1
  rcases b2 with _ | ⟨c2, cs2⟩
  · exact absurd rfl hb2
  rw [parse_block_first_verse t c cs hh1]
  have hbeq : (strLower (c :: cs) == strLower (c2 :: cs2)) = true := beq_iff_eq.mpr hlow
  have hfind :
      (Song.find_content_in_part
        { title := t
          tags := []
          parts := [{ id := { id := "Verse.1".toList, checked_unique := false }
                      part_type := .Verse
                      number := 1
                      contents := [{ voice_type := .Lyrics .Default, content := c :: cs }]
                      is_repetition_of := none
                      occurs_after := none }] } (c2 :: cs2)).getLast? = some 0 := by
    unfold Song.find_content_in_part
    simp [hbeq, hlow]
  rw [parse_block_promotes _ _ 0 (by simp) hh2 hfind]
  constructor <;> rfl

/-- Witness for claim C2 at concrete inputs: a song holding one Verse part
whose content is `"la"` has that part promoted by a repeated block `"LA"`
(type Chorus, number 1, id `"Chorus.1"`), and importing the two blocks
`"la"`, `"LA"` in sequence gives one Chorus part and zero Verse parts. -/
theorem c2_witness :
    (parse_block "LA".toList
        { title := []
          tags := []
          parts := [{ id := { id := "Verse.1".toList, checked_unique := false }
                      part_type := .Verse
                      number := 1
                      contents := [{ voice_type := .Lyrics .Default, content := "la".toList }]
                      is_repetition_of := none
                      occurs_after := none }] } =
      { title := []
        tags := []
        parts := [{ id := { id := "Chorus.1".toList, checked_unique := false }
                    part_type := .Chorus
                    number := 1
                    contents := [{ voice_type := .Lyrics .Default, content := "la".toList }]
                    is_repetition_of := none
                    occurs_after := none }] }) ∧
    (parse_block "LA".toList (parse_block "la".toList (Song.new []))).get_part_count .Chorus = 1 ∧
    (parse_block "LA".toList (parse_block "la".toList (Song.new []))).get_part_count .Verse = 0 := by
  refine ⟨?_, (c2_chorus_promotion.2 "la".toList "LA".toList [] (by decide) (by decide)
    (by decide) (by decide) (by decide)).1,
    (c2_chorus_promotion.2 "la".toList "LA".toList [] (by decide) (by decide)
    (by decide) (by decide) (by decide)).2⟩
  have := c2_chorus_promotion.1
    { title := []
      tags := []
      parts := [{ id := { id := "Verse.1".toList, checked_unique := false }
                  part_type := .Verse
                  number := 1
                  contents := [{ voice_type := .Lyrics .Default, content := "la".toList }]
                  is_repetition_of := none
                  occurs_after := none }] } "LA".toList 0 (by decide) (by decide) (by decide)
  rw [this]
  rfl

/-! ### Claim C5: where the meta text is attached with `FirstSlide` policy -/

/-- Counterexample to claim C5: for the two-stanza content `"Hello\n\nWorld"`
with `show_meta_information = FirstSlide`, `title_slide = true` and a render
collaborator producing the nonempty meta text `"M"`, the slides carrying
non-empty meta text are those at indices 0 and 2 — not index 1. The title
slide (index 0) receives the meta text whenever it is showable, regardless of
the policy, and the `index == 1` test in the content loop counts *stanzas*,
so it selects the second content slide, which sits at overall index 2 behind
the title slide. -/
theorem c5_counterexample :
    (slides_from_classic_song 0 "Hello\n\nWorld".toList
        { title_slide := true
          show_spoiler := true
          show_meta_information := .FirstSlide
          meta_template := "m".toList
          empty_last_slide := false
          max_lines := none }
        (fun _ _ => .ok "M".toList) "T".toList).map
        (fun l => l.map Slide.has_meta_text) = some [true, false, true] := by
  rfl

theorem has_meta_text_new_content_some (mt : Str) (sp : Option Str) (m : Str)
    (hm : strTrim m ≠ []) :
    (Slide.new_content_slide mt sp (some m)).has_meta_text = true := by
  unfold Slide.new_content_slide SingleLanguageMainContentSlide.new Slide.has_meta_text
  simp [hm]

theorem has_meta_text_new_content_none (mt : Str) (sp : Option Str) :
    (Slide.new_content_slide mt sp none).has_meta_text = false := by
  unfold Slide.new_content_slide SingleLanguageMainContentSlide.new Slide.has_meta_text
  rcases sp with _ | s
  · rfl
  · by_cases h : strTrim s = [] <;> simp [h]

/-- Claim C5 as amended: with `show_meta_information = FirstSlide`, a title
slide enabled and a meta text that is non-blank after trimming, the slides
carrying non-empty meta text are exactly the title slide (index 0) and the
content slide of stanza index 1 — overall index 2 — when it exists; no other
slide carries one. Stated as an exact equation on the `has_meta_text` map of
the synthesis phase, for arbitrary assembled (or wrapped) stanza
sequences. -/
theorem c5_meta_on_title_and_third_slide (blocks secondary_blocks : List Stanza)
    (metadata : List (Str × Str)) (settings : SlideSettings) (render : RenderFn)
    (backup_title : Str) (m : Str)
    (hpol : settings.show_meta_information = .FirstSlide)
    (htitle : settings.title_slide = true)
    (hrender : render settings.meta_template metadata = .ok m)
    (hm : strTrim m ≠ []) :
    (synthesizeSlides blocks secondary_blocks metadata settings render
        backup_title).map Slide.has_meta_text =
      true :: ((List.range blocks.length).map (fun idx => decide (idx = 1)) ++
        (if settings.empty_last_slide then [false] else [])) := by
  have hm0 : m ≠ [] := fun h => hm (by rw [h]; rfl)
  have hshow : m.isEmpty = false := by
    cases m
    · exact absurd rfl hm0
    · rfl
  unfold synthesizeSlides
  rw [hrender, hpol, htitle]
  simp only [ShowMetaInformation.on_first_slide, ShowMetaInformation.on_last_slide,
    hshow, Bool.not_false, Bool.true_and, Bool.false_and, Bool.or_false, if_true,
    List.map_append]
  have h1 : ∀ ttl : Str, List.map Slide.has_meta_text [Slide.new_title_slide ttl (some m)]
      = [true] := by
    intro ttl
    simp [Slide.new_title_slide, Slide.has_meta_text]
  rw [h1]
  have h3 : List.map Slide.has_meta_text
      (if settings.empty_last_slide = true then [Slide.new_empty_slide false] else [])
      = (if settings.empty_last_slide = true then [false] else []) := by
    cases settings.empty_last_slide <;>
      simp [Slide.new_empty_slide, Slide.has_meta_text]
  rw [h3, List.map_map]
  have h2 : ∀ p : Nat × Stanza, p ∈ blocks.enum →
      (Slide.has_meta_text ∘ (fun p : Nat × Stanza =>
        if List.isEmpty (secondary_blocks.getD p.1 []) = true then
          match blocks[p.1 + 1]? with
          | some next_block =>
            Slide.new_content_slide (joinLines p.2) (some (joinLines next_block))
              (if (p.1 == 1) = true then some m else none)
          | none => Slide.new_content_slide (joinLines p.2) none
              (if (p.1 == 1) = true then some m else none)
        else
          Slide.new_content_slide (joinLines p.2)
            (some (joinLines (secondary_blocks.getD p.1 [])))
            (if (p.1 == 1) = true then some m else none))) p
      = (fun p : Nat × Stanza => decide (p.1 = 1)) p := by
    intro p _
    by_cases hidx : p.1 = 1
    · have hb : (p.1 == 1) = true := by simpa using hidx
      simp only [Function.comp_apply, hb, if_true]
      split
      · split <;> rw [has_meta_text_new_content_some _ _ _ hm] <;> simp [hidx]
      · rw [has_meta_text_new_content_some _ _ _ hm]; simp [hidx]
    · have hb : (p.1 == 1) = false := by simpa using hidx
      simp only [Function.comp_apply, hb, Bool.false_eq_true, if_false]
      split
      · split <;> rw [has_meta_text_new_content_none] <;> simp [hidx]
      · rw [has_meta_text_new_content_none]; simp [hidx]
  rw [List.map_congr_left h2]
  have h4 : List.map (fun p : Nat × Stanza => decide (p.1 = 1)) blocks.enum
      = List.map (fun idx => decide (idx = 1)) (List.range blocks.length) := by
    rw [List.enum_eq_zip_range,
      show (fun p : Nat × Stanza => decide (p.1 = 1))
        = ((fun idx => decide (idx = 1)) ∘ Prod.fst) from rfl,
      ← List.map_map, List.map_fst_zip _ _ (by simp)]
  rw [h4]
  rfl

/-- Witness for the amended claim C5 at a concrete input: two stanzas, title
slide on, `FirstSlide` policy, trailing empty slide on, meta text `"M"` —
the `has_meta_text` map is `[true, false, true, false]`. -/
theorem c5_witness :
    (synthesizeSlides [["a".toList], ["b".toList]] [[], []] []
        { title_slide := true
          show_spoiler := true
          show_meta_information := .FirstSlide
          meta_template := "m".toList
          empty_last_slide := true
          max_lines := none }
        (fun _ _ => .ok "M".toList) "T".toList).map Slide.has_meta_text
      = [true, false, true, false] := by
  have := c5_meta_on_title_and_third_slide [["a".toList], ["b".toList]] [[], []] []
    { title_slide := true
      show_spoiler := true
      show_meta_information := .FirstSlide
      meta_template := "m".toList
      empty_last_slide := true
      max_lines := none }
    (fun _ _ => .ok "M".toList) "T".toList "M".toList rfl rfl rfl (by decide)
  rw [this]
  rfl

/-! ### Claims C1 and C4: the wrap engine

The inner loop is first reduced to a per-track closed form (`moveIter`, then
`movePair` on the two affected stanzas); the outer loop is then handled by
induction on the measure `wrapMeasure`. -/

theorem getD_append_len {α : Type} (A l : List α) (d : α) (k : Nat) :
    (A ++ l).getD (A.length + k) d = l.getD k d := by
  rw [List.getD_eq_getElem?_getD, List.getD_eq_getElem?_getD,
    List.getElem?_append_right (by omega)]
  have harith : A.length + k - A.length = k := by omega
  rw [harith]

theorem getD_append_lt {α : Type} (A l : List α) (d : α) (j : Nat) (h : j < A.length) :
    (A ++ l).getD j d = A.getD j d := by
  rw [List.getD_eq_getElem?_getD, List.getD_eq_getElem?_getD, List.getElem?_append,
    if_pos h]

theorem set_append_len {α : Type} (A : List α) (l : List α) (k : Nat) (a : α) :
    (A ++ l).set (A.length + k) a = A ++ l.set k a := by
  induction A with
  | nil => simp
  | cons x xs ih =>
    simp only [List.cons_append, List.length_cons]
    rw [show xs.length + 1 + k = (xs.length + k) + 1 by omega]
    rw [List.set_cons_succ, ih]

theorem insertIdx_append_len {α : Type} (A : List α) (l : List α) (k : Nat) (a : α) :
    (A ++ l).insertIdx (A.length + k) a = A ++ l.insertIdx k a := by
  induction A with
  | nil => simp
  | cons x xs ih =>
    simp only [List.cons_append, List.length_cons]
    rw [show xs.length + 1 + k = (xs.length + k) + 1 by omega]
    rw [List.insertIdx_succ_cons, ih]

theorem stanzaAt_oob (tr : Track) (j : Nat) (h : tr.length ≤ j) : stanzaAt tr j = [] := by
  unfold stanzaAt
  rw [List.getD_eq_getElem?_getD, List.getElem?_eq_none h]
  rfl

theorem lt_length_of_stanzaAt_ne_nil (tr : Track) (i : Nat) (h : stanzaAt tr i ≠ []) :
    i < tr.length := by
  by_contra hle
  exact h (stanzaAt_oob tr i (by omega))

theorem stanzaAt_shape (A : Track) (u : Stanza) (B : Track) :
    stanzaAt (A ++ u :: B) A.length = u := by
  unfold stanzaAt
  have := getD_append_len A (u :: B) ([] : Stanza) 0
  simpa using this

theorem moveOnce_shape (i s m : Nat) (A : Track) (u v : Stanza) (B : Track)
    (hA : A.length = i) :
    moveOnce i s m (A ++ u :: v :: B) =
      A ++ (movePairStep s m (u, v)).1 :: (movePairStep s m (u, v)).2 :: B := by
  subst hA
  unfold moveOnce movePairStep
  rw [stanzaAt_shape]
  by_cases hs : s < u.length
  · rw [if_pos hs, if_pos hs]
    have hv : stanzaAt (A ++ u :: v :: B) (A.length + 1) = v := by
      unfold stanzaAt
      have := getD_append_len A (u :: v :: B) ([] : Stanza) 1
      simpa using this
    have hset1 : (A ++ u :: v :: B).set A.length (u.eraseIdx s) =
        A ++ u.eraseIdx s :: v :: B := by
      have := set_append_len A (u :: v :: B) 0 (u.eraseIdx s)
      simpa using this
    rw [hv, hset1]
    have := set_append_len A (u.eraseIdx s :: v :: B) 1 (v.insertIdx m (u.getD s []))
    simpa using this
  · rw [if_neg hs, if_neg hs]

theorem moveIter_shape (i s : Nat) (c : Nat) : ∀ (m : Nat) (A : Track) (u v : Stanza)
    (B : Track), A.length = i →
    moveIter i s c m (A ++ u :: v :: B) =
      A ++ (movePair s c m (u, v)).1 :: (movePair s c m (u, v)).2 :: B := by
  induction c with
  | zero => intro m A u v B hA; rfl
  | succ c ih =>
    intro m A u v B hA
    show moveIter i s c (m + 1) (moveOnce i s m (A ++ u :: v :: B)) = _
    rw [moveOnce_shape i s m A u v B hA]
    rw [ih (m + 1) A _ _ B hA]
    rfl

theorem moveOnce_stanza (i s m : Nat) (tr : Track)
    (hs : s < (stanzaAt tr i).length) :
    stanzaAt (moveOnce i s m tr) i = (stanzaAt tr i).eraseIdx s := by
  have hi : i < tr.length := by
    apply lt_length_of_stanzaAt_ne_nil
    intro h
    rw [h] at hs
    simp at hs
  unfold moveOnce
  rw [if_pos hs]
  unfold stanzaAt
  rw [List.getD_eq_getElem?_getD, List.getElem?_set_ne (by omega),
    List.getElem?_set_self (by simpa using hi)]
  rfl

theorem innerLoop_eq_map (i s : Nat) : ∀ (c fuel m : Nat) (tracks : List Track),
    (stanzaAt (tracks.headD []) i).length = s + c → c ≤ fuel →
    innerLoop fuel tracks i s m = tracks.map (moveIter i s c m) := by
  intro c
  induction c with
  | zero =>
    intro fuel m tracks hlen _
    have hmapid : tracks.map (moveIter i s 0 m) = tracks := by
      rw [show moveIter i s 0 m = id from funext fun tr => rfl, List.map_id]
    cases fuel with
    | zero => rw [hmapid]; rfl
    | succ f =>
      show (if s < (stanzaAt (tracks.headD []) i).length then _ else tracks) = _
      rw [if_neg (by omega), hmapid]
  | succ c ih =>
    intro fuel m tracks hlen hfuel
    cases fuel with
    | zero => omega
    | succ f =>
      rcases tracks with _ | ⟨t0, ts⟩
      · exfalso
        have h0 : (stanzaAt (([] : List Track).headD []) i).length = 0 := rfl
        omega
      have hlen' : (stanzaAt t0 i).length = s + (c + 1) := hlen
      show (if s < (stanzaAt ((t0 :: ts).headD []) i).length then _ else _) = _
      simp only [List.headD_cons]
      rw [if_pos (show s < (stanzaAt t0 i).length by omega)]
      have hnew : (stanzaAt (((t0 :: ts).map (moveOnce i s m)).headD []) i).length
          = s + c := by
        show (stanzaAt (moveOnce i s m t0) i).length = s + c
        rw [moveOnce_stanza i s m t0 (by omega)]
        rw [List.length_eraseIdx]
        rw [if_pos (by omega)]
        omega
      rw [ih f (m + 1) _ hnew (by omega), List.map_map]
      apply List.map_congr_left
      intro tr _
      rfl

theorem movePair_stuck (s : Nat) : ∀ (c m : Nat) (u v : Stanza), u.length ≤ s →
    movePair s c m (u, v) = (u, v) := by
  intro c
  induction c with
  | zero => intro m u v _; rfl
  | succ c ih =>
    intro m u v h
    show movePair s c (m + 1) (movePairStep s m (u, v)) = _
    rw [show movePairStep s m (u, v) = (u, v) from by
      unfold movePairStep; rw [if_neg (Nat.not_lt.mpr h)]]
    exact ih (m + 1) u v h

theorem movePair_lengths (s : Nat) : ∀ (c m : Nat) (u v : Stanza),
    u.length = s + c → m ≤ v.length →
    (movePair s c m (u, v)).1.length = s ∧
    (movePair s c m (u, v)).2.length = v.length + c := by
  intro c
  induction c with
  | zero =>
    intro m u v hu _
    refine ⟨show u.length = s by omega, show v.length = v.length + 0 by omega⟩
  | succ c ih =>
    intro m u v hu hv
    have hs : s < u.length := by omega
    have hstep : movePair s (c + 1) m (u, v)
        = movePair s c (m + 1) (u.eraseIdx s, v.insertIdx m (u.getD s [])) := by
      show movePair s c (m + 1) (movePairStep s m (u, v)) = _
      rw [show movePairStep s m (u, v) = (u.eraseIdx s, v.insertIdx m (u.getD s [])) from by
        unfold movePairStep; rw [if_pos hs]]
    rw [hstep]
    have h1 : (u.eraseIdx s).length = s + c := by
      rw [List.length_eraseIdx, if_pos hs]; omega
    have h2 : (v.insertIdx m (u.getD s [])).length = v.length + 1 :=
      List.length_insertIdx m v hv
    obtain ⟨ha, hb⟩ := ih (m + 1) (u.eraseIdx s) (v.insertIdx m (u.getD s [])) h1 (by omega)
    exact ⟨ha, by rw [hb, h2]; omega⟩

theorem movePair_flatten_perm (s : Nat) : ∀ (c m : Nat) (u v : Stanza), m ≤ v.length →
    ((movePair s c m (u, v)).1 ++ (movePair s c m (u, v)).2).Perm (u ++ v) := by
  intro c
  induction c with
  | zero => intro m u v _; exact List.Perm.refl _
  | succ c ih =>
    intro m u v hv
    by_cases hs : s < u.length
    · set x := u.getD s [] with hx
      have hstep0 : movePair s (c + 1) m (u, v)
          = movePair s c (m + 1) (u.eraseIdx s, v.insertIdx m x) := by
        show movePair s c (m + 1) (movePairStep s m (u, v)) = _
        rw [show movePairStep s m (u, v) = (u.eraseIdx s, v.insertIdx m x) from by
          unfold movePairStep; rw [if_pos hs]]
      rw [hstep0]
      have h2 : (v.insertIdx m x).length = v.length + 1 := List.length_insertIdx m v hv
      have hstep := ih (m + 1) (u.eraseIdx s) (v.insertIdx m x) (by omega)
      refine hstep.trans ?_
      have hins : (v.insertIdx m x).Perm (x :: v) := List.perm_insertIdx x v hv
      have hu : u.Perm (x :: u.eraseIdx s) := by
        conv_lhs => rw [← List.take_append_drop s u, List.drop_eq_getElem_cons hs]
        have hxeq : u[s] = x := by
          rw [hx, List.getD_eq_getElem?_getD, List.getElem?_eq_getElem hs]
          rfl
        rw [hxeq, List.eraseIdx_eq_take_drop_succ]
        exact List.perm_middle
      refine (List.Perm.append_left (u.eraseIdx s) hins).trans ?_
      refine List.perm_middle.trans ?_
      exact (List.Perm.append_right v hu).symm
    · rw [movePair_stuck s (c + 1) m u v (by omega)]

theorem exists_one_decomp (tr : Track) (i : Nat) (h : i < tr.length) :
    ∃ A u B, tr = A ++ u :: B ∧ A.length = i := by
  refine ⟨tr.take i, tr[i], tr.drop (i + 1), ?_, by simp [List.length_take]; omega⟩
  conv_lhs => rw [← List.take_append_drop i tr, List.drop_eq_getElem_cons h]

theorem exists_two_decomp (tr : Track) (i : Nat) (h : i + 1 < tr.length) :
    ∃ A u v B, tr = A ++ u :: v :: B ∧ A.length = i := by
  refine ⟨tr.take i, tr[i], tr[i + 1], tr.drop (i + 2), ?_, by simp [List.length_take]; omega⟩
  conv_lhs => rw [← List.take_append_drop i tr, List.drop_eq_getElem_cons (by omega : i < tr.length),
    List.drop_eq_getElem_cons h]

theorem insertIdx_shape (A : Track) (u : Stanza) (B : Track) :
    (A ++ u :: B).insertIdx (A.length + 1) ([] : Stanza) = A ++ u :: [] :: B := by
  have := insertIdx_append_len A (u :: B) 1 ([] : Stanza)
  rw [this]
  rfl

theorem moveOnce_length (i s m : Nat) (tr : Track) :
    (moveOnce i s m tr).length = tr.length := by
  simp only [moveOnce]
  split
  · simp
  · rfl

theorem moveIter_length (i s : Nat) : ∀ (c m : Nat) (tr : Track),
    (moveIter i s c m tr).length = tr.length := by
  intro c
  induction c with
  | zero => intro m tr; rfl
  | succ c ih =>
    intro m tr
    show (moveIter i s c (m + 1) (moveOnce i s m tr)).length = _
    rw [ih (m + 1) (moveOnce i s m tr), moveOnce_length]

theorem flatten_two_shape (A : Track) (u v : Stanza) (B : Track) :
    (A ++ u :: v :: B).flatten = A.flatten ++ ((u ++ v) ++ B.flatten) := by
  simp [List.flatten_append, List.append_assoc]

theorem moveIter_flatten_perm (i s c : Nat) (A : Track) (u v : Stanza) (B : Track)
    (hA : A.length = i) :
    ((moveIter i s c 0 (A ++ u :: v :: B)).flatten).Perm ((A ++ u :: v :: B).flatten) := by
  rw [moveIter_shape i s c 0 A u v B hA, flatten_two_shape, flatten_two_shape]
  exact List.Perm.append_left _
    (List.Perm.append_right _ (movePair_flatten_perm s c 0 u v (Nat.zero_le _)))

theorem moveIter_prefix (i s c : Nat) (A : Track) (u v : Stanza) (B : Track)
    (hA : A.length = i) (j : Nat) (hj : j < i) :
    stanzaAt (moveIter i s c 0 (A ++ u :: v :: B)) j = stanzaAt (A ++ u :: v :: B) j := by
  rw [moveIter_shape i s c 0 A u v B hA]
  unfold stanzaAt
  rw [getD_append_lt A _ _ j (by omega), getD_append_lt A _ _ j (by omega)]

theorem moveIter_stanza_i (i s c : Nat) (A : Track) (u v : Stanza) (B : Track)
    (hA : A.length = i) :
    stanzaAt (moveIter i s c 0 (A ++ u :: v :: B)) i = (movePair s c 0 (u, v)).1 := by
  rw [moveIter_shape i s c 0 A u v B hA, ← hA]
  exact stanzaAt_shape A _ _

theorem sumFrom_shape (i : Nat) (A rest : Track) (hA : A.length = i) :
    sumFrom i (A ++ rest) = (rest.map List.length).sum := by
  unfold sumFrom
  subst hA
  rw [List.drop_left]

theorem getD_map_track (f : Track → Track) (tracks : List Track) (t : Nat)
    (h : t < tracks.length) :
    (tracks.map f).getD t [] = f (tracks.getD t []) := by
  rw [List.getD_eq_getElem?_getD, List.getElem?_map, List.getD_eq_getElem?_getD,
    List.getElem?_eq_getElem h]
  rfl

theorem getD_mem_track (tracks : List Track) (t : Nat) (h : t < tracks.length) :
    tracks.getD t [] ∈ tracks := by
  rw [List.getD_eq_getElem?_getD, List.getElem?_eq_getElem h]
  exact List.getElem_mem h

theorem stanzaAt_insertIdx (tr : Track) (i : Nat) (h : i < tr.length) :
    stanzaAt (tr.insertIdx (i + 1) ([] : Stanza)) i = stanzaAt tr i := by
  obtain ⟨A, u, B, rfl, hA⟩ := exists_one_decomp tr i h
  subst hA
  rw [insertIdx_shape, stanzaAt_shape, stanzaAt_shape]

/-- Closed form of `loopBody` in the splitting case: the optional insertion of
an empty stanza into every track, followed by the per-track closed form of the
inner move loop. -/
theorem loopBody_closed (t0 : Track) (ts : List Track) (i maxL : Nat) (pers : Bool)
    (hbig : maxL < (stanzaAt t0 i).length) (hguard : i < t0.length) :
    loopBody (t0 :: ts) i maxL pers =
      (if ((t0[i + 1]?).isNone || pers) = true
        then (t0 :: ts).map (fun tr => tr.insertIdx (i + 1) ([] : Stanza))
        else (t0 :: ts)).map
        (moveIter i (min (maxL - 1) ((stanzaAt t0 i).length / 2))
          ((stanzaAt t0 i).length - min (maxL - 1) ((stanzaAt t0 i).length / 2)) 0) := by
  have hdiv : (stanzaAt t0 i).length / 2 ≤ (stanzaAt t0 i).length := Nat.div_le_self _ _
  have hsle : min (maxL - 1) ((stanzaAt t0 i).length / 2) ≤ (stanzaAt t0 i).length := by
    have := min_le_right (maxL - 1) ((stanzaAt t0 i).length / 2)
    omega
  unfold loopBody
  simp only [List.headD_cons]
  rw [if_pos hbig]
  by_cases hc : ((t0[i + 1]?).isNone || pers) = true
  · rw [if_pos hc]
    apply innerLoop_eq_map
    · show (stanzaAt (t0.insertIdx (i + 1) ([] : Stanza)) i).length = _
      rw [stanzaAt_insertIdx t0 i hguard]
      omega
    · omega
  · rw [if_neg hc]
    apply innerLoop_eq_map
    · show (stanzaAt t0 i).length = _
      omega
    · omega

theorem flatten_one_shape (A : Track) (u : Stanza) (B : Track) :
    (A ++ u :: B).flatten = A.flatten ++ (u ++ B.flatten) := by
  simp [List.flatten_append]

theorem sumFrom_succ (tr : Track) (i : Nat) (h : i < tr.length) :
    sumFrom i tr = (stanzaAt tr i).length + sumFrom (i + 1) tr := by
  obtain ⟨A, u, B, rfl, hA⟩ := exists_one_decomp tr i h
  rw [sumFrom_shape i A (u :: B) hA]
  rw [show A ++ u :: B = (A ++ [u]) ++ B by simp]
  rw [sumFrom_shape (i + 1) (A ++ [u]) B (by simp [hA])]
  rw [show (A ++ [u]) ++ B = A ++ u :: B by simp]
  rw [← hA, stanzaAt_shape]
  simp

theorem eqLens_map_preserving (g : Track → Track) (tracks : List Track)
    (hg : ∀ tr, (g tr).length = tr.length) (h : equal_track_lengths tracks) :
    equal_track_lengths (tracks.map g) := by
  rcases tracks with _ | ⟨a, as⟩
  · intro tr htr; cases htr
  · intro tr' htr'
    obtain ⟨tr, htr, rfl⟩ := List.mem_map.mp htr'
    show (g tr).length = (((a :: as).map g).headD []).length
    simp only [List.map_cons, List.headD_cons]
    rw [hg tr, hg a]
    exact h tr htr

theorem head_track_facts (i s c : Nat) (A : Track) (u v : Stanza) (B : Track)
    (hA : A.length = i) (hu : u.length = s + c) :
    (stanzaAt (moveIter i s c 0 (A ++ u :: v :: B)) i).length = s ∧
    sumFrom i (moveIter i s c 0 (A ++ u :: v :: B)) = sumFrom i (A ++ u :: v :: B) ∧
    (∀ j, j < i →
      stanzaAt (moveIter i s c 0 (A ++ u :: v :: B)) j = stanzaAt (A ++ u :: v :: B) j) := by
  have hml := movePair_lengths s c 0 u v hu (Nat.zero_le _)
  refine ⟨?_, ?_, moveIter_prefix i s c A u v B hA⟩
  · rw [moveIter_stanza_i i s c A u v B hA]
    exact hml.1
  · rw [moveIter_shape i s c 0 A u v B hA, sumFrom_shape i A _ hA, sumFrom_shape i A _ hA]
    simp only [List.map_cons, List.sum_cons]
    rw [hml.1, hml.2]
    omega

/-- Everything the outer-loop induction needs to know about one splitting
iteration of the wrap loop: track-length equality is preserved, the number of
tracks is unchanged, the termination measure strictly decreases, the stanzas
before `i` in the primary track are untouched, the primary stanza at `i` now
fits the limit, and each track's lines are conserved up to permutation. -/
theorem loopBody_split_facts (t0 : Track) (ts : List Track) (i maxL : Nat) (pers : Bool)
    (heq : equal_track_lengths (t0 :: ts))
    (hguard : i < t0.length)
    (hbig : maxL < (stanzaAt t0 i).length)
    (hmax : 2 ≤ maxL) :
    equal_track_lengths (loopBody (t0 :: ts) i maxL pers) ∧
    (loopBody (t0 :: ts) i maxL pers).length = (t0 :: ts).length ∧
    wrapMeasure (loopBody (t0 :: ts) i maxL pers) (i + 1) < wrapMeasure (t0 :: ts) i ∧
    (∀ j, j < i → stanzaAt ((loopBody (t0 :: ts) i maxL pers).headD []) j = stanzaAt t0 j) ∧
    (stanzaAt ((loopBody (t0 :: ts) i maxL pers).headD []) i).length ≤ maxL ∧
    (∀ t, t < (t0 :: ts).length →
      (((loopBody (t0 :: ts) i maxL pers).getD t []).flatten).Perm
        (((t0 :: ts).getD t []).flatten)) := by
  have hbody := loopBody_closed t0 ts i maxL pers hbig hguard
  set n0 : Nat := (stanzaAt t0 i).length with hn0
  set s : Nat := min (maxL - 1) (n0 / 2) with hsdef
  set c : Nat := n0 - s with hcdef
  have hs1 : 1 ≤ s := le_min (by omega) (by omega)
  have hsle : s ≤ maxL - 1 := min_le_left _ _
  have hsn : s < n0 := by
    have h2 := min_le_right (maxL - 1) (n0 / 2)
    have h3 : n0 / 2 < n0 := Nat.div_lt_self (by omega) (by omega)
    omega
  have hL : ∀ tr ∈ t0 :: ts, tr.length = t0.length := fun tr htr => heq tr htr
  by_cases hcond : ((t0[i + 1]?).isNone || pers) = true
  · rw [if_pos hcond] at hbody
    obtain ⟨A, u, B0, ht0, hA⟩ := exists_one_decomp t0 i hguard
    have hu : stanzaAt t0 i = u := by
      rw [ht0, ← hA]
      exact stanzaAt_shape A u B0
    have hulen : u.length = s + c := by
      have := congrArg List.length hu
      rw [← hn0] at this
      omega
    have hins : t0.insertIdx (i + 1) ([] : Stanza) = A ++ u :: [] :: B0 := by
      rw [ht0, ← hA]
      exact insertIdx_shape A u B0
    have hinslen : ∀ tr ∈ t0 :: ts,
        (tr.insertIdx (i + 1) ([] : Stanza)).length = tr.length + 1 := by
      intro tr htr
      exact List.length_insertIdx _ _ (by rw [hL tr htr]; omega)
    have heq1 : equal_track_lengths
        ((t0 :: ts).map (fun tr => tr.insertIdx (i + 1) ([] : Stanza))) := by
      intro tr' htr'
      obtain ⟨tr, htr, rfl⟩ := List.mem_map.mp htr'
      show _ = ((((t0 :: ts).map (fun tr => tr.insertIdx (i + 1) ([] : Stanza))).headD [])).length
      simp only [List.map_cons, List.headD_cons]
      rw [hinslen tr htr, hinslen t0 (List.mem_cons_self t0 ts), hL tr htr]
    have heq' : equal_track_lengths (loopBody (t0 :: ts) i maxL pers) := by
      rw [hbody]
      exact eqLens_map_preserving _ _ (fun tr => moveIter_length i s c 0 tr) heq1
    have hlen' : (loopBody (t0 :: ts) i maxL pers).length = (t0 :: ts).length := by
      rw [hbody]
      simp
    have hheadD : (loopBody (t0 :: ts) i maxL pers).headD []
        = moveIter i s c 0 (A ++ u :: [] :: B0) := by
      rw [hbody]
      simp only [List.map_cons, List.headD_cons]
      rw [hins]
    have hfacts := head_track_facts i s c A u ([] : Stanza) B0 hA hulen
    have hbound : (stanzaAt ((loopBody (t0 :: ts) i maxL pers).headD []) i).length ≤ maxL := by
      rw [hheadD, hfacts.1]
      omega
    have hpre : ∀ j, j < i →
        stanzaAt ((loopBody (t0 :: ts) i maxL pers).headD []) j = stanzaAt t0 j := by
      intro j hj
      rw [hheadD, hfacts.2.2 j hj, ht0]
      unfold stanzaAt
      rw [getD_append_lt A _ _ j (by omega), getD_append_lt A _ _ j (by omega)]
    have hhead'len : (moveIter i s c 0 (A ++ u :: [] :: B0)).length = t0.length + 1 := by
      rw [moveIter_length, ← hins]
      exact hinslen t0 (List.mem_cons_self t0 ts)
    have hsum' : sumFrom i (moveIter i s c 0 (A ++ u :: [] :: B0)) = sumFrom i t0 := by
      rw [hfacts.2.1, sumFrom_shape i A _ hA, ht0, sumFrom_shape i A _ hA]
      simp
    have hsumsucc := sumFrom_succ (moveIter i s c 0 (A ++ u :: [] :: B0)) i
      (by rw [hhead'len]; omega)
    rw [hfacts.1] at hsumsucc
    have hsumt0 := sumFrom_succ t0 i hguard
    rw [← hn0] at hsumt0
    have hmeas : wrapMeasure (loopBody (t0 :: ts) i maxL pers) (i + 1)
        < wrapMeasure (t0 :: ts) i := by
      unfold wrapMeasure
      rw [hheadD]
      simp only [List.headD_cons]
      rw [hhead'len]
      omega
    have hperm : ∀ t, t < (t0 :: ts).length →
        (((loopBody (t0 :: ts) i maxL pers).getD t []).flatten).Perm
          (((t0 :: ts).getD t []).flatten) := by
      intro t ht
      rw [hbody, getD_map_track _ _ t (by simpa using ht), getD_map_track _ _ t ht]
      have htrmem : (t0 :: ts).getD t [] ∈ t0 :: ts := getD_mem_track _ t ht
      have htrlen : i < ((t0 :: ts).getD t []).length := by
        rw [hL _ htrmem]
        omega
      obtain ⟨At, ut, Bt, htr2, hAt⟩ := exists_one_decomp ((t0 :: ts).getD t []) i htrlen
      have hins2 : ((t0 :: ts).getD t []).insertIdx (i + 1) ([] : Stanza)
          = At ++ ut :: [] :: Bt := by
        rw [htr2, ← hAt]
        exact insertIdx_shape At ut Bt
      rw [hins2]
      refine (moveIter_flatten_perm i s c At ut [] Bt hAt).trans ?_
      rw [flatten_two_shape, htr2, flatten_one_shape]
      simp
    exact ⟨heq', hlen', hmeas, hpre, hbound, hperm⟩
  · rw [if_neg hcond] at hbody
    have hsome : i + 1 < t0.length := by
      by_contra hnot
      apply hcond
      rw [List.getElem?_eq_none (by omega)]
      rfl
    obtain ⟨A, u, v, B, ht0, hA⟩ := exists_two_decomp t0 i hsome
    have hu : stanzaAt t0 i = u := by
      rw [ht0, ← hA]
      exact stanzaAt_shape A u (v :: B)
    have hulen : u.length = s + c := by
      have := congrArg List.length hu
      rw [← hn0] at this
      omega
    have heq' : equal_track_lengths (loopBody (t0 :: ts) i maxL pers) := by
      rw [hbody]
      exact eqLens_map_preserving _ _ (fun tr => moveIter_length i s c 0 tr) heq
    have hlen' : (loopBody (t0 :: ts) i maxL pers).length = (t0 :: ts).length := by
      rw [hbody]
      simp
    have hheadD : (loopBody (t0 :: ts) i maxL pers).headD []
        = moveIter i s c 0 (A ++ u :: v :: B) := by
      rw [hbody]
      simp only [List.map_cons, List.headD_cons]
      rw [ht0]
    have hfacts := head_track_facts i s c A u v B hA hulen
    have hbound : (stanzaAt ((loopBody (t0 :: ts) i maxL pers).headD []) i).length ≤ maxL := by
      rw [hheadD, hfacts.1]
      omega
    have hpre : ∀ j, j < i →
        stanzaAt ((loopBody (t0 :: ts) i maxL pers).headD []) j = stanzaAt t0 j := by
      intro j hj
      rw [hheadD, hfacts.2.2 j hj, ht0]
    have hhead'len : (moveIter i s c 0 (A ++ u :: v :: B)).length = t0.length := by
      rw [moveIter_length, ← ht0]
    have hsum' : sumFrom i (moveIter i s c 0 (A ++ u :: v :: B)) = sumFrom i t0 := by
      rw [hfacts.2.1, ← ht0]
    have hsumsucc := sumFrom_succ (moveIter i s c 0 (A ++ u :: v :: B)) i
      (by rw [hhead'len]; omega)
    rw [hfacts.1] at hsumsucc
    have hsumt0 := sumFrom_succ t0 i hguard
    rw [← hn0] at hsumt0
    have hmeas : wrapMeasure (loopBody (t0 :: ts) i maxL pers) (i + 1)
        < wrapMeasure (t0 :: ts) i := by
      unfold wrapMeasure
      rw [hheadD]
      simp only [List.headD_cons]
      rw [hhead'len]
      omega
    have hperm : ∀ t, t < (t0 :: ts).length →
        (((loopBody (t0 :: ts) i maxL pers).getD t []).flatten).Perm
          (((t0 :: ts).getD t []).flatten) := by
      intro t ht
      rw [hbody, getD_map_track _ _ t ht]
      have htrmem : (t0 :: ts).getD t [] ∈ t0 :: ts := getD_mem_track _ t ht
      have htrlen : i + 1 < ((t0 :: ts).getD t []).length := by
        rw [hL _ htrmem]
        omega
      obtain ⟨At, ut, vt, Bt, htr2, hAt⟩ := exists_two_decomp ((t0 :: ts).getD t []) i htrlen
      rw [htr2]
      exact moveIter_flatten_perm i s c At ut vt Bt hAt
    exact ⟨heq', hlen', hmeas, hpre, hbound, hperm⟩

/-- Induction on `wrapMeasure`: for `maximum_lines ≥ 2` and equal track
lengths, the outer wrap loop terminates with enough fuel, every stanza of the
resulting primary track fits the limit, and each track's lines are conserved
up to permutation. -/
theorem outerLoop_total (maxL : Nat) (pers : Bool) (hmax : 2 ≤ maxL) :
    ∀ (n : Nat) (tracks : List Track) (i : Nat),
      equal_track_lengths tracks →
      wrapMeasure tracks i ≤ n →
      (∀ j, j < i → (stanzaAt (tracks.headD []) j).length ≤ maxL) →
      ∃ fuel out, outerLoop fuel tracks i maxL pers = some out ∧
        out.length = tracks.length ∧
        (∀ j, (stanzaAt (out.headD []) j).length ≤ maxL) ∧
        (∀ t, t < tracks.length →
          ((out.getD t []).flatten).Perm ((tracks.getD t []).flatten)) := by
  intro n
  induction n with
  | zero =>
    intro tracks i heq hM hpre
    have hguard : ¬ i < (tracks.headD []).length := by
      intro h
      unfold wrapMeasure at hM
      omega
    refine ⟨0, tracks, ?_, rfl, ?_, fun t ht => List.Perm.refl _⟩
    · show (if i < (tracks.headD []).length then none else some tracks) = some tracks
      rw [if_neg hguard]
    · intro j
      by_cases hj : j < i
      · exact hpre j hj
      · rw [stanzaAt_oob _ j (by omega)]
        simp
  | succ n ih =>
    intro tracks i heq hM hpre
    by_cases hguard : i < (tracks.headD []).length
    · rcases tracks with _ | ⟨t0, ts⟩
      · simp at hguard
      have hguard0 : i < t0.length := hguard
      by_cases hbig : maxL < (stanzaAt t0 i).length
      · obtain ⟨heq', hlen', hmeas, hpre', hbound, hperm⟩ :=
          loopBody_split_facts t0 ts i maxL pers heq hguard0 hbig hmax
        have hpre2 : ∀ j, j < i + 1 →
            (stanzaAt ((loopBody (t0 :: ts) i maxL pers).headD []) j).length ≤ maxL := by
          intro j hj
          by_cases hji : j < i
          · rw [hpre' j hji]
            exact hpre j hji
          · have hje : j = i := by omega
            subst hje
            exact hbound
        obtain ⟨fuel, out, hrun, hlenO, hboundO, hpermO⟩ :=
          ih (loopBody (t0 :: ts) i maxL pers) (i + 1) heq' (by omega) hpre2
        refine ⟨fuel + 1, out, ?_, ?_, hboundO, ?_⟩
        · show (if i < ((t0 :: ts).headD []).length then
              outerLoop fuel (loopBody (t0 :: ts) i maxL pers) (i + 1) maxL pers
            else some (t0 :: ts)) = some out
          rw [if_pos hguard]
          exact hrun
        · rw [hlenO, hlen']
        · intro t ht
          refine (hpermO t ?_).trans (hperm t ht)
          rw [hlen']
          exact ht
      · have hbody : loopBody (t0 :: ts) i maxL pers = t0 :: ts := by
          unfold loopBody
          simp only [List.headD_cons]
          rw [if_neg hbig]
        have hM' : wrapMeasure (t0 :: ts) (i + 1) ≤ n := by
          unfold wrapMeasure at hM ⊢
          simp only [List.headD_cons] at hM ⊢
          have := sumFrom_succ t0 i hguard0
          omega
        have hpre2 : ∀ j, j < i + 1 →
            (stanzaAt ((t0 :: ts).headD []) j).length ≤ maxL := by
          intro j hj
          by_cases hji : j < i
          · exact hpre j hji
          · have hje : j = i := by omega
            subst hje
            simp only [List.headD_cons]
            omega
        obtain ⟨fuel, out, hrun, hlenO, hboundO, hpermO⟩ :=
          ih (t0 :: ts) (i + 1) heq hM' hpre2
        refine ⟨fuel + 1, out, ?_, hlenO, hboundO, hpermO⟩
        show (if i < ((t0 :: ts).headD []).length then
            outerLoop fuel (loopBody (t0 :: ts) i maxL pers) (i + 1) maxL pers
          else some (t0 :: ts)) = some out
        rw [if_pos hguard, hbody]
        exact hrun
    · refine ⟨0, tracks, ?_, rfl, ?_, fun t ht => List.Perm.refl _⟩
      · show (if i < (tracks.headD []).length then none else some tracks) = some tracks
        rw [if_neg hguard]
      · intro j
        by_cases hj : j < i
        · exact hpre j hj
        · rw [stanzaAt_oob _ j (by omega)]
          simp

/-- The full `wrap_blocks` guarantee for `maximum_lines ≥ 2` under the
equal-track-lengths precondition: some fuel returns a value, the track count
is preserved, every stanza of the primary track fits the limit, and each
track's lines are conserved up to permutation. -/
theorem wrap_blocks_total (blocks : List Track) (maxL : Nat) (pers : Bool)
    (heq : equal_track_lengths blocks) (hmax : 2 ≤ maxL) :
    ∃ fuel out, wrap_blocks fuel blocks maxL pers = .ok out ∧
      out.length = blocks.length ∧
      (∀ j, (stanzaAt (out.headD []) j).length ≤ maxL) ∧
      (∀ t, t < blocks.length →
        ((out.getD t []).flatten).Perm ((blocks.getD t []).flatten)) := by
  rcases blocks with _ | ⟨b0, bs⟩
  · refine ⟨0, [], rfl, rfl, ?_, fun t ht => absurd ht (by simp)⟩
    intro j
    rw [show (([] : List Track).headD []) = ([] : Track) from rfl, stanzaAt_oob _ j (by simp)]
    simp
  · have hnomis : (bs.any fun tr => tr.length != ((b0 :: bs).headD []).length) = false := by
      rw [List.any_eq_false]
      intro tr htr
      rw [bne_iff_ne]
      intro hne
      exact hne (heq tr (List.mem_cons_of_mem b0 htr))
    obtain ⟨fuel, out, hrun, hlen, hbound, hperm⟩ :=
      outerLoop_total maxL pers hmax (wrapMeasure (b0 :: bs) 0) (b0 :: bs) 0 heq
        (le_refl _) (by omega)
    refine ⟨fuel, out, ?_, hlen, hbound, hperm⟩
    unfold wrap_blocks
    rw [if_neg (by simp)]
    rw [if_neg (by rw [List.tail_cons, hnomis]; exact Bool.false_ne_true)]
    rw [hrun]

/-- For `maximum_lines = 1` the outer wrap loop never terminates on a stanza
of two lines: at every stanza index the split point is
`min (1 - 1) (2 / 2) = 0`, so both lines are moved into a freshly inserted
stanza, which is examined next — the state is always a padding of empty
stanzas followed by the same two-line stanza. -/
theorem outerLoop_max1_diverges : ∀ (fuel : Nat) (P : Track) (i : Nat), P.length = i →
    outerLoop fuel [P ++ [["a".toList, "b".toList]]] i 1 true = none := by
  intro fuel
  induction fuel with
  | zero =>
    intro P i hP
    show (if i < (([P ++ [["a".toList, "b".toList]]].headD []).length) then none
      else some _) = none
    rw [if_pos (by simp only [List.headD_cons, List.length_append, List.length_cons,
      List.length_nil, hP]; omega)]
  | succ fuel ih =>
    intro P i hP
    have hst : stanzaAt (P ++ [["a".toList, "b".toList]]) i = ["a".toList, "b".toList] := by
      rw [← hP]
      exact stanzaAt_shape P _ []
    have hguard : i < (P ++ [["a".toList, "b".toList]]).length := by
      simp only [List.length_append, List.length_cons, List.length_nil, hP]
      omega
    have hbody : loopBody [P ++ [["a".toList, "b".toList]]] i 1 true
        = [(P ++ [[]]) ++ [["a".toList, "b".toList]]] := by
      rw [loopBody_closed (P ++ [["a".toList, "b".toList]]) [] i 1 true
        (by rw [hst]; decide) hguard]
      rw [if_pos (by simp)]
      simp only [List.map_cons, List.map_nil]
      rw [hst]
      have hins : (P ++ [["a".toList, "b".toList]]).insertIdx (i + 1) ([] : Stanza)
          = P ++ ["a".toList, "b".toList] :: [] :: [] := by
        rw [← hP]
        exact insertIdx_shape P _ []
      rw [hins]
      rw [moveIter_shape _ _ _ 0 P _ _ [] hP]
      rw [show movePair (min (1 - 1) ((["a".toList, "b".toList] : Stanza).length / 2))
        ((["a".toList, "b".toList] : Stanza).length
          - min (1 - 1) ((["a".toList, "b".toList] : Stanza).length / 2)) 0
        (["a".toList, "b".toList], ([] : Stanza)) = ([], ["a".toList, "b".toList]) from rfl]
      simp
    show (if i < (([P ++ [["a".toList, "b".toList]]].headD []).length) then
        outerLoop fuel (loopBody [P ++ [["a".toList, "b".toList]]] i 1 true) (i + 1) 1 true
      else some _) = none
    rw [if_pos (by simpa using hguard), hbody]
    exact ih (P ++ [[]]) (i + 1) (by simp [hP])

/-- With `maximum_lines = 1`, `wrap_blocks` on the single track holding the
one stanza `["a", "b"]` exhausts any fuel. -/
theorem wrap_max1_timeout (fuel : Nat) :
    wrap_blocks fuel [[["a".toList, "b".toList]]] 1 true = .timeout := by
  unfold wrap_blocks
  rw [if_neg (by simp), if_neg (by simp)]
  have hdiv := outerLoop_max1_diverges fuel [] 0 rfl
  rw [show ([] : Track) ++ [["a".toList, "b".toList]] = [["a".toList, "b".toList]] from rfl]
    at hdiv
  rw [hdiv]

/-- Counterexample to claim C1: with `maximum_lines = 1` (allowed by the
claim's `maximum_lines ≥ 1`) and the single equal-length track `[["a", "b"]]`,
`wrap_blocks` never returns — its outer loop moves both lines into a freshly
inserted stanza forever — so no run produces an output satisfying the claimed
bound and conservation. -/
theorem c1_counterexample :
    ¬ ∃ fuel out, wrap_blocks fuel [[["a".toList, "b".toList]]] 1 true = .ok out ∧
      (∀ j, (stanzaAt (out.headD []) j).length ≤ 1) ∧
      (∀ t, t < 1 → ((out.getD t []).flatten).Perm
        ((([[["a".toList, "b".toList]]] : List Track).getD t []).flatten)) := by
  rintro ⟨fuel, out, hout, -, -⟩
  rw [wrap_max1_timeout fuel] at hout
  cases hout

/-- Claim C1 as amended: for every list of parallel tracks with equal stanza
counts and every `maximum_lines ≥ 2`, `wrap_blocks` terminates (some fuel
returns a value), keeps the number of tracks, leaves every stanza of the
primary track with at most `maximum_lines` lines, and conserves the multiset
of lines of every track. -/
theorem c1_wrap_bound_and_conservation (blocks : List Track) (maximum_lines : Nat)
    (persistence : Bool) (heq : equal_track_lengths blocks)
    (hmax : 2 ≤ maximum_lines) :
    ∃ fuel out, wrap_blocks fuel blocks maximum_lines persistence = .ok out ∧
      out.length = blocks.length ∧
      (∀ j, (stanzaAt (out.headD []) j).length ≤ maximum_lines) ∧
      (∀ t, t < blocks.length →
        ((out.getD t []).flatten).Perm ((blocks.getD t []).flatten)) :=
  wrap_blocks_total blocks maximum_lines persistence heq hmax

/-- Witness for the amended claim C1 at a concrete input: two parallel
one-stanza tracks of three and four lines, wrapped with limit 2. -/
theorem c1_witness :
    ∃ fuel out,
      wrap_blocks fuel
        [[["a".toList, "b".toList, "c".toList]],
         [["x".toList, "y".toList, "z".toList, "w".toList]]] 2 true = .ok out ∧
      out.length = 2 ∧
      (∀ j, (stanzaAt (out.headD []) j).length ≤ 2) ∧
      (∀ t, t < 2 → ((out.getD t []).flatten).Perm
        ((([[["a".toList, "b".toList, "c".toList]],
            [["x".toList, "y".toList, "z".toList, "w".toList]]] : List Track).getD t
          []).flatten)) :=
  c1_wrap_bound_and_conservation
    [[["a".toList, "b".toList, "c".toList]],
     [["x".toList, "y".toList, "z".toList, "w".toList]]] 2 true (by decide) (by decide)

/-- Counterexample to claim C4: at `maximum_lines = 1` (allowed by the claim's
`maximum_lines ≥ 1`) the while loop of `wrap_blocks` does not terminate on
the single-track input `[[["a", "b"]]]`, although the equal-stanza-counts
precondition holds. -/
theorem c4_counterexample :
    ¬ wrap_terminates [[["a".toList, "b".toList]]] 1 true := by
  rintro ⟨fuel, out, hout⟩
  rw [wrap_max1_timeout fuel] at hout
  cases hout

/-- Claim C4 as amended: for every input satisfying the equal-stanza-counts
precondition and every `maximum_lines ≥ 2`, the while loop of `wrap_blocks`
terminates and a result is returned. -/
theorem c4_wrap_terminates_for_two_le (blocks : List Track) (maximum_lines : Nat)
    (persistence : Bool) (heq : equal_track_lengths blocks)
    (hmax : 2 ≤ maximum_lines) :
    wrap_terminates blocks maximum_lines persistence := by
  obtain ⟨fuel, out, hrun, -, -, -⟩ :=
    wrap_blocks_total blocks maximum_lines persistence heq hmax
  exact ⟨fuel, out, hrun⟩

/-- Witness for the amended claim C4 at a concrete input. -/
theorem c4_witness :
    wrap_terminates [[["a".toList, "b".toList, "c".toList], ["d".toList]],
      [["x".toList], ["y".toList]]] 2 false :=
  c4_wrap_terminates_for_two_le
    [[["a".toList, "b".toList, "c".toList], ["d".toList]], [["x".toList], ["y".toList]]]
    2 false (by decide) (by decide)

end Cantara
